import Mathlib

/-!
Verification development for the AutoClean tabular-data cleaning pipeline
(src/AutoClean/AutoClean.py).  The pipeline is embedded shallowly:

* numeric cell values are rationals (`ℚ`); a missing value (NaN) is `none`;
* a pandas percentile/quantile computation that would return NaN is modelled
  as `none`;
* pandas/sklearn operations that raise are modelled with `Except`;
* a dataframe is an ordered list of named, dtype-tagged columns.

Definitions are translated from the Python source; definitions whose name ends
in `Spec` restate a sentence of the natural-language specification and are only
used to compare the specification against the code.
-/

/-- A rational is integral exactly when its denominator is one.  This models
the per-value meaning of the pandas check
`(column.fillna(-9999) % 1 == 0).all()` used throughout AutoClean.py
(lines 156, 180, 250, 257); the fill value -9999 is itself integral, so a
missing value passes the check. -/
def qIsInt (q : ℚ) : Bool := q.den = 1

/-- C-style truncation toward zero, as performed by `numpy.astype(int)`:
`Int.div` truncates the quotient of the numerator by the (positive)
denominator toward zero, matching the C cast. -/
def ratTrunc (q : ℚ) : ℤ := q.num.tdiv (q.den : ℤ)

/-- Truncation toward zero returned as a rational. -/
def truncQ (q : ℚ) : ℚ := (ratTrunc q : ℚ)

/-- Round half to even at integer precision (the rounding used by
`Series.round`, AutoClean.py line 191). -/
def rndHalfEven (q : ℚ) : ℤ :=
  let f := q.floor
  let r := q - (f : ℚ)
  if r < 1/2 then f else if 1/2 < r then f + 1 else if f % 2 = 0 then f else f + 1

/-- `Series.round(decimals=2)` on a single value (AutoClean.py line 191,
`_decimals = 2`). -/
def round2 (q : ℚ) : ℚ := (rndHalfEven (q * 100) : ℚ) / 100

/-- Insert into an ascending list, keeping duplicates. -/
def insAsc (a : ℚ) : List ℚ → List ℚ
  | [] => [a]
  | b :: t => if a ≤ b then a :: b :: t else b :: insAsc a t

/-- Ascending sort keeping duplicates: `sorted(df[col])` on a numeric column
without missing values (AutoClean.py line 442). -/
def sortQ (l : List ℚ) : List ℚ := l.foldr insAsc []

/-- Insert into an ascending duplicate-free list. -/
def sortedInsert {α : Type} [LinearOrder α] (a : α) : List α → List α
  | [] => [a]
  | b :: t => if a = b then b :: t else if a < b then a :: b :: t else b :: sortedInsert a t

/-- The distinct elements of a list in ascending order: `numpy.unique`, which
is what `sklearn.preprocessing.LabelEncoder.fit` uses to build `classes_`
(AutoClean.py line 429) and what `SimpleImputer(strategy=most_frequent)` uses
for tie-breaking. -/
def uniqueSorted {α : Type} [LinearOrder α] (l : List α) : List α := l.foldr sortedInsert []

/-- `numpy.percentile(s, p)` with the default linear-interpolation method, on
an already sorted nonempty list `s` (AutoClean.py line 444).  The virtual
index is `p/100 * (n-1)`; the value is linearly interpolated between the two
neighbouring order statistics. -/
def percentileLin (s : List ℚ) (p : ℚ) : ℚ :=
  let n := s.length
  let pos : ℚ := p * (n - 1) / 100
  let i : ℕ := pos.floor.toNat
  let frac : ℚ := pos - (i : ℚ)
  match s.get? (i + 1) with
  | some b => s.getD i 0 + frac * (b - s.getD i 0)
  | none => s.getD i 0

/-- `Modules._compute_bounds` (AutoClean.py lines 441-450).  The column is
sorted as-is: missing values are NOT excluded, and `numpy.percentile` returns
NaN as soon as the input contains a NaN, so the bounds pair is NaN; NaN bounds
are modelled as `none`.  An empty column would make `numpy.percentile` raise;
this is also modelled as `none` (no claim exercises an empty column). -/
def computeBounds (k : ℚ) (c : List (Option ℚ)) : Option (ℚ × ℚ) :=
  if c.isEmpty then none
  else if c.any Option.isNone then none
  else
    let s := sortQ (c.filterMap id)
    let q1 := percentileLin s 25
    let q3 := percentileLin s 75
    let iqr := q3 - q1
    some (q1 - k * iqr, q3 + k * iqr)

/-- The bounds calculator as the specification states it (spec section 4.4 and
claim C2): sort the NON-MISSING values, compute the linearly interpolated
25th and 75th percentiles, and return `(Q1 - k*IQR, Q3 + k*IQR)`.  Used only
to compare the specification with `computeBounds`. -/
def computeBoundsSpec (k : ℚ) (c : List (Option ℚ)) : Option (ℚ × ℚ) :=
  let vs := c.filterMap id
  if vs.isEmpty then none
  else
    let s := sortQ vs
    let q1 := percentileLin s 25
    let q3 := percentileLin s 75
    let iqr := q3 - q1
    some (q1 - k * iqr, q3 + k * iqr)

/-- `row_val < lower_bound` (AutoClean.py line 248) where the value and the
bounds may be NaN: any comparison with NaN is false. -/
def outLow : Option ℚ → Option (ℚ × ℚ) → Bool
  | some v, some b => v < b.1
  | _, _ => false

/-- `row_val > upper_bound` (AutoClean.py line 248) with NaN comparisons
evaluating to false. -/
def outHigh : Option ℚ → Option (ℚ × ℚ) → Bool
  | some v, some b => b.2 < v
  | _, _ => false

/-- Lower bound of a (non-NaN) bounds pair. -/
def bndLow : Option (ℚ × ℚ) → ℚ
  | some b => b.1
  | none => 0

/-- Upper bound of a (non-NaN) bounds pair. -/
def bndHigh : Option (ℚ × ℚ) → ℚ
  | some b => b.2
  | none => 0

/-- The column-level integrality test `(col.fillna(-9999) % 1 == 0).all()`:
missing values count as integral because the fill value -9999 is. -/
def allIntegralO (c : List (Option ℚ)) : Bool :=
  c.all fun x => match x with
    | none => true
    | some q => qIsInt q

/-- `column.astype(int)` on a column without missing values, truncating every
value toward zero (call sites are guarded so that no missing value is
present when the cast fires). -/
def castIntO (c : List (Option ℚ)) : List (Option ℚ) := c.map (Option.map truncQ)

/-- One pass of the `winz` loop body of `Modules._check_outliers`
(AutoClean.py lines 246-262) over the remaining row indices `is`.  `orig` is
the series object captured by `enumerate(df[col_name])`, whose values the
loop reads; `cur` is the current state of the dataframe column.  For an
out-of-bounds value the column is first checked for integrality in its
CURRENT state; if integral, the bound is written and the whole column is cast
back to int (truncating the bound), otherwise the exact bound is written. -/
def winzGo (b : Option (ℚ × ℚ)) (orig : List (Option ℚ)) :
    List ℕ → List (Option ℚ) → List (Option ℚ)
  | [], cur => cur
  | i :: rest, cur =>
    let v := orig.getD i none
    let cur' :=
      if outLow v b then
        (if allIntegralO cur then castIntO (cur.set i (some (bndLow b)))
         else cur.set i (some (bndLow b)))
      else if outHigh v b then
        (if allIntegralO cur then castIntO (cur.set i (some (bndHigh b)))
         else cur.set i (some (bndHigh b)))
      else cur
    winzGo b orig rest cur'

/-- The `winz` outlier treatment of one numeric column
(AutoClean.py lines 240-262): bounds are computed once from the column, then
every row is visited in order. -/
def winzColumn (k : ℚ) (c : List (Option ℚ)) : List (Option ℚ) :=
  winzGo (computeBounds k c) c (List.range c.length) c

/-- Clamping a value into `[lb, ub]`, the way claims C1/C4 describe the
winsorized output value. -/
def clampQ (lb ub v : ℚ) : ℚ := if v < lb then lb else if ub < v then ub else v

/-- Row mask of the `delete` outlier treatment for one column
(AutoClean.py lines 267-272): `true` marks a row whose value lies outside the
bounds and is hence dropped. -/
def outsideMask (b : Option (ℚ × ℚ)) (c : List (Option ℚ)) : List Bool :=
  c.map fun v => outLow v b || outHigh v b

/-- A single datetime value, as produced by `pandas.to_datetime` on an
ISO-formatted string (component accessors `.dt.day` etc.,
AutoClean.py lines 293-308). -/
structure DTm where
  day : ℕ
  month : ℕ
  year : ℕ
  hour : ℕ
  minute : ℕ
  sec : ℕ
deriving DecidableEq

/-- A concrete (non-missing) cell value of a dataframe. -/
inductive Val where
  | num (q : ℚ)
  | str (s : String)
  | dt (d : DTm)
deriving DecidableEq

/-- A cell: a concrete value or the missing marker NaN/NaT. -/
abbrev Cell := Option Val

/-- The pandas dtype of a column, which is what
`df.select_dtypes(include=np.number)` inspects:  `dint`/`dfloat` are numeric,
`dobj` (object) and `ddt` (datetime64) are not. -/
inductive Dtype where
  | dint
  | dfloat
  | dobj
  | ddt
deriving DecidableEq

/-- A named column of a dataframe. -/
structure Col where
  name : String
  dtype : Dtype
  cells : List Cell
deriving DecidableEq

/-- A dataframe: an ordered list of columns sharing one row count. -/
abbrev Df := List Col

/-- Whether a dtype is selected by `select_dtypes(include=np.number)`. -/
def numericDtype : Dtype → Bool
  | Dtype.dint => true
  | Dtype.dfloat => true
  | Dtype.dobj => false
  | Dtype.ddt => false

/-- The numeric view of a column used by the numeric stages: a `num` cell is
its rational value, a missing cell is NaN.  (A numeric-dtype column only ever
holds `num` cells or missing markers; other constructors are mapped to
missing defensively.) -/
def colQ (col : Col) : List (Option ℚ) :=
  col.cells.map fun c => match c with
    | some (Val.num q) => some q
    | _ => none

/-- The column-level integrality test on raw cells, mirroring
`(df[col].fillna(-9999) % 1 == 0).all()`: missing cells pass (the fill value
is integral); non-numeric cells cannot occur in a numeric-dtype column. -/
def allIntegralCells (cells : List Cell) : Bool :=
  cells.all fun c => match c with
    | none => true
    | some (Val.num q) => qIsInt q
    | some _ => false

/-- Number of missing values in the whole dataframe:
`df.isna().sum().sum()` (AutoClean.py lines 120, 204). -/
def totalMissing (df : Df) : ℕ :=
  (df.map fun c => (c.cells.filter Option.isNone).length).sum

/-- Row count of a dataframe (all columns share it). -/
def nRows (df : Df) : ℕ := (df.head?.map fun c => c.cells.length).getD 0

/-- Drop the rows marked `true` in `mask` and reindex contiguously
(`df.drop(...)` / `df.dropna()` followed by `reset_index(drop=True)`). -/
def dropRowsByMask (mask : List Bool) (df : Df) : Df :=
  df.map fun c =>
    { c with cells := ((mask.zip c.cells).filter fun p => !p.1).map Prod.snd }

/-- Mask of rows containing at least one missing value anywhere. -/
def missingRowMask (df : Df) : List Bool :=
  (List.range (nRows df)).map fun i => df.any fun c => (c.cells.getD i none).isNone

/-- `df.dropna().reset_index(drop=True)` (AutoClean.py lines 140-141 and
222-223): drop every row containing any missing value, reindex. -/
def dropnaDf (df : Df) : Df := dropRowsByMask (missingRowMask df) df

/-- Non-missing numeric values of a column view. -/
def nonMissingQ (c : List (Option ℚ)) : List ℚ := c.filterMap id

/-- Mean of a list of rationals (`SimpleImputer(strategy=mean)`). -/
def meanQ (l : List ℚ) : ℚ := l.sum / l.length

/-- Median with the numpy convention (`SimpleImputer(strategy=median)`):
middle order statistic, or the average of the two middle ones. -/
def medianQ (l : List ℚ) : ℚ :=
  let s := sortQ l
  let n := s.length
  if n % 2 = 1 then s.getD (n / 2) 0
  else (s.getD (n / 2 - 1) 0 + s.getD (n / 2) 0) / 2

/-- Most frequent value, ties broken by the smallest value
(`SimpleImputer(strategy=most_frequent)`). -/
def modeQ (l : List ℚ) : ℚ :=
  (uniqueSorted l).foldl
    (fun best a => if l.count best < l.count a then a else best)
    ((uniqueSorted l).headD 0)

/-- The per-column fill value of `Modules._check_missings_num`
(AutoClean.py lines 126-136).  `knn` is `KNNImputer(n_neighbors=3)` applied to
the single column in isolation: a row that is missing shares no observed
coordinate with any other row, so `nan_euclidean` yields no usable neighbour
and the imputer falls back to the column mean — single-feature KNN therefore
degenerates to mean imputation (the implemented quirk noted in spec 4.2). -/
def fillValue (strat : String) (l : List ℚ) : ℚ :=
  if strat = "median" then medianQ l
  else if strat = "mode" then modeQ l
  else meanQ l

/-- Per-column imputation (AutoClean.py line 154).  An all-missing column is
dropped by the sklearn imputer, so the subsequent `imputed[col_name]` lookup
raises (KeyError) before anything is assigned; this is the per-column failure
caught at line 163. -/
def imputeNumCol (strat : String) (c : List (Option ℚ)) : Except Unit (List ℚ) :=
  match nonMissingQ c with
  | [] => Except.error ()
  | _ :: _ => Except.ok (c.map fun x => match x with
      | some q => q
      | none => fillValue strat (nonMissingQ c))

/-- The body of the per-column loop of `Modules._check_missings_num`
(AutoClean.py lines 152-164): on failure the column is left untouched; on
success the imputed values are assigned, and if the pre-assignment column was
integral (missing values counting as integral) the column is cast to int,
truncating the imputed value. -/
def imputeStepCol (strat : String) (col : Col) : Col :=
  match imputeNumCol strat (colQ col) with
  | Except.error _ => col
  | Except.ok vals =>
    if allIntegralCells col.cells then
      { col with dtype := Dtype.dint,
                 cells := vals.map fun q => some (Val.num (truncQ q)) }
    else
      { col with dtype := Dtype.dfloat,
                 cells := vals.map fun q => some (Val.num q) }

/-- `Modules._check_missings_num` (AutoClean.py lines 116-170).  Strategy
`none` models the falsy flag `False` (stage disabled); with no missing value
anywhere the stage is a no-op; `delete` drops every row with a missing value
and returns; otherwise every numeric column is imputed independently. -/
def checkMissingsNum (mn : Option String) (df : Df) : Df :=
  match mn with
  | none => df
  | some s =>
    if totalMissing df = 0 then df
    else if s = "delete" then dropnaDf df
    else df.map fun c => if numericDtype c.dtype then imputeStepCol s c else c

/-- Most frequent non-missing cell value of a categorical column, `none` when
every cell is missing.  (sklearn breaks frequency ties by the smallest value;
ties are broken here by first occurrence, which no claim depends on.) -/
def modeVal (cells : List Cell) : Option Val :=
  let vs := cells.filterMap id
  vs.foldl
    (fun best a => match best with
      | none => some a
      | some b => if vs.count b < vs.count a then some a else best)
    none

/-- Mode imputation of one categorical column (AutoClean.py lines 213-216).
An all-missing column is dropped by `SimpleImputer(strategy=most_frequent)`,
so rebuilding the one-column dataframe raises; there is NO try/except around
this loop body, so the error escapes the stage. -/
def imputeCategCol (cells : List Cell) : Except Unit (List Cell) :=
  match modeVal cells with
  | none => Except.error ()
  | some m => Except.ok (cells.map fun c => match c with
      | none => some m
      | some v => some v)

/-- `Modules._check_missings_categ` (AutoClean.py lines 200-232).  Unlike the
numeric handler, the mode-imputation loop has no per-column exception
handler, so a failing column aborts the whole run (modelled by `Except`). -/
def checkMissingsCateg (mc : Option String) (df : Df) : Except Unit Df :=
  match mc with
  | none => Except.ok df
  | some s =>
    if totalMissing df = 0 then Except.ok df
    else if s = "mode" then
      df.mapM fun c =>
        if numericDtype c.dtype then pure c
        else do
          let cells ← imputeCategCol c.cells
          pure { c with cells := cells }
    else if s = "delete" then Except.ok (dropnaDf df)
    else Except.ok df

/-- Look up a column by name (first match). -/
def getColByName (df : Df) (n : String) : Option Col :=
  df.find? fun c => c.name = n

/-- Replace the column named `n` in place (first match). -/
def replaceCol (df : Df) (n : String) (newCol : Col) : Df :=
  df.map fun c => if c.name = n then newCol else c

/-- `df[n] = ...`: overwrite the column named `n` if it exists, keeping its
position, else append a new column at the end. -/
def setColF (df : Df) (n : String) (dty : Dtype) (cells : List Cell) : Df :=
  if df.any fun c => c.name = n then replaceCol df n ⟨n, dty, cells⟩
  else df ++ [⟨n, dty, cells⟩]

/-- One iteration of the outlier loop of `Modules._check_outliers`
(AutoClean.py lines 240-278) for the column named `n` of the current
dataframe: compute bounds from the column as it currently stands, then either
winsorize the column or drop the outlying rows from the whole dataframe and
reindex.  (When winsorizing changes nothing the dataframe is untouched; the
dtype of a changed column reflects whether the final state is integral, the
only dtype property later stages depend on.) -/
def outlierStep (s : String) (k : ℚ) (df : Df) (n : String) : Df :=
  match getColByName df n with
  | none => df
  | some col =>
    let b := computeBounds k (colQ col)
    if s = "winz" then
      let r := winzColumn k (colQ col)
      if r = colQ col then df
      else
        replaceCol df n
          { col with dtype := if allIntegralO r then Dtype.dint else Dtype.dfloat,
                     cells := r.map (Option.map Val.num) }
    else if s = "delete" then
      dropRowsByMask (outsideMask b (colQ col)) df
    else df

/-- `Modules._check_outliers` (AutoClean.py lines 234-281): numeric columns
are processed one at a time, sequentially and cumulatively — the list of
column names is fixed up front, but each column is re-read from the current
(possibly already shrunken) dataframe. -/
def checkOutliers (strat : Option String) (k : ℚ) (df : Df) : Df :=
  match strat with
  | none => df
  | some s =>
    let names := (df.filter fun c => numericDtype c.dtype).map Col.name
    names.foldl (fun d n => outlierStep s k d n) df

/-- Whether a non-numeric column round-trips through `pandas.to_datetime`
(AutoClean.py line 291).  String parsing itself is not modelled: a column of
ISO-formatted datetime strings is represented as a column of already-parsed
`Val.dt` values; `NaT` (missing) cells also parse. -/
def parseableDT (cells : List Cell) : Bool :=
  cells.all fun c => match c with
    | some (Val.dt _) => true
    | none => true
    | some _ => false

/-- Component extraction `pd.to_datetime(df[col]).dt.<comp>`: each parsed row
yields the numeric component, a missing row yields NaN. -/
def dtComponent (f : DTm → ℕ) (cells : List Cell) : List Cell :=
  cells.map fun c => match c with
    | some (Val.dt d) => some (Val.num (f d))
    | _ => none

/-- `(df[n] == 0).all()` on an extracted component column: a comparison with
NaN is false, so any missing cell makes the conjunction fail. -/
def allZeroCol (col : Col) : Bool :=
  col.cells.all fun c => match c with
    | some (Val.num q) => q = 0
    | _ => false

/-- Drop the column named `n` (`df.drop(n, axis=1)`). -/
def dropCol (df : Df) (n : String) : Df := df.filter fun c => ¬ c.name = n

/-- The elif branch of the datetime cleanup heuristic
(AutoClean.py lines 318-321): drop Day/Month/Year when all three exist and
are uniformly zero; a missing column raises KeyError, which the surrounding
try swallows, leaving the dataframe unchanged.  Short-circuiting of the
Python `and` is preserved: a false conjunct is reached before a later
KeyError. -/
def dtCleanupElif (df : Df) : Df :=
  match getColByName df "Day" with
  | none => df
  | some d =>
    if allZeroCol d then
      match getColByName df "Month" with
      | none => df
      | some m =>
        if allZeroCol m then
          match getColByName df "Year" with
          | none => df
          | some y =>
            if allZeroCol y then dropCol (dropCol (dropCol df "Day") "Month") "Year"
            else df
        else df
    else df

/-- The datetime cleanup heuristic (AutoClean.py lines 312-323): if Hour,
Minute and Sec all exist and are uniformly zero, drop those three; elif Day,
Month and Year all exist and are uniformly zero, drop those three; a KeyError
raised while evaluating the first condition skips both branches. -/
def dtCleanup (df : Df) : Df :=
  match getColByName df "Hour" with
  | none => df
  | some h =>
    if allZeroCol h then
      match getColByName df "Minute" with
      | none => df
      | some m =>
        if allZeroCol m then
          match getColByName df "Sec" with
          | none => df
          | some s =>
            if allZeroCol s then dropCol (dropCol (dropCol df "Hour") "Minute") "Sec"
            else dtCleanupElif df
        else dtCleanupElif df
    else dtCleanupElif df

/-- The per-column body of `Modules._convert_datetime`
(AutoClean.py lines 288-326): if the column parses as datetime, convert it in
place, derive the component columns according to the granularity nesting, and
apply the cleanup heuristic; otherwise leave the dataframe unchanged. -/
def convertDatetimeStep (gs : String) (df : Df) (n : String) : Df :=
  match getColByName df n with
  | none => df
  | some col =>
    if parseableDT col.cells then
      let df1 := setColF df n Dtype.ddt col.cells
      let df2 := setColF df1 "Day" Dtype.dint (dtComponent DTm.day col.cells)
      let df3 := if gs = "M" ∨ gs = "Y" ∨ gs = "h" ∨ gs = "m" ∨ gs = "s"
        then setColF df2 "Month" Dtype.dint (dtComponent DTm.month col.cells) else df2
      let df4 := if gs = "Y" ∨ gs = "h" ∨ gs = "m" ∨ gs = "s"
        then setColF df3 "Year" Dtype.dint (dtComponent DTm.year col.cells) else df3
      let df5 := if gs = "h" ∨ gs = "m" ∨ gs = "s"
        then setColF df4 "Hour" Dtype.dint (dtComponent DTm.hour col.cells) else df4
      let df6 := if gs = "m" ∨ gs = "s"
        then setColF df5 "Minute" Dtype.dint (dtComponent DTm.minute col.cells) else df5
      let df7 := if gs = "s"
        then setColF df6 "Sec" Dtype.dint (dtComponent DTm.sec col.cells) else df6
      dtCleanup df7
    else df

/-- `Modules._convert_datetime` (AutoClean.py lines 283-329): the non-numeric
column names are fixed up front, then each is processed in turn.  (The source
iterates a Python set, whose order is unspecified; document order is used
here, and every claim exercises a single datetime column, for which the order
is irrelevant.) -/
def convertDatetime (g : Option String) (df : Df) : Df :=
  match g with
  | none => df
  | some gs =>
    let names := (df.filter fun c => ¬ numericDtype c.dtype).map Col.name
    names.foldl (fun d n => convertDatetimeStep gs d n) df

/-- Number of distinct non-missing values (`Series.nunique`). -/
def nuniqueCol (col : Col) : ℕ := (col.cells.filterMap id).dedup.length

/-- Printable form of a category value, used to name one-hot indicator
columns (`pd.get_dummies(df[col], prefix=col)`). -/
def valKey : Val → String
  | Val.str s => s
  | Val.num q => toString q
  | Val.dt _ => "dt"

/-- `Modules._onehot_encode` (AutoClean.py lines 418-424): one indicator
column per distinct category (in sorted key order, as `get_dummies`
produces), appended to the dataframe; the original column is retained.
Missing rows get 0 in every indicator column. -/
def onehotEncode (df : Df) (n : String) : Df :=
  match getColByName df n with
  | none => df
  | some col =>
    let cats := uniqueSorted ((col.cells.filterMap id).map valKey)
    df ++ cats.map fun cat =>
      ⟨n ++ "_" ++ cat, Dtype.dint,
        col.cells.map fun c => match c with
          | some v => some (Val.num (if valKey v = cat then 1 else 0))
          | none => some (Val.num 0)⟩

/-- `Modules._label_encode` restricted to one column of string categories
(AutoClean.py lines 426-439).  `LabelEncoder.fit_transform` calls
`numpy.unique`, which sorts the values: a column holding both strings and
NaN cannot be ordered and raises TypeError (modelled as an error); an
all-missing column encodes to the single class NaN, whose codes are mapped
back to the missing marker by the `isnan` loop. -/
def labelEncodeCol (c : List (Option String)) : Except Unit (List (Option ℕ)) :=
  if (c.any Option.isNone) && (c.any Option.isSome) then Except.error ()
  else if c.all Option.isNone then Except.ok (c.map fun _ => none)
  else Except.ok (c.map (Option.map fun v => (uniqueSorted (c.filterMap id)).indexOf v))

/-- The label-encoding classes as the specification states them
(spec section 4.7 / claim C9): each distinct category in order of FIRST
APPEARANCE.  Used only to compare the specification with `labelEncodeCol`. -/
def firstAppearClassesSpec (c : List String) : List String :=
  c.foldl (fun acc v => if v ∈ acc then acc else acc ++ [v]) []

/-- The string view of a column for label encoding: `str` cells are the
categories; a non-string cell makes the sorted-unique step of the encoder
raise, which is modelled as a missing marker feeding the mixed-content error
path of `labelEncodeCol`. -/
def colS (col : Col) : List (Option String) :=
  col.cells.map fun c => match c with
    | some (Val.str s) => some s
    | _ => none

/-- Label encoding of a named dataframe column, replacing values in place
(AutoClean.py line 429); the encoded column has integer dtype. -/
def labelEncodeDf (df : Df) (n : String) : Except Unit Df :=
  match getColByName df n with
  | none => Except.ok df
  | some col => do
    let codes ← labelEncodeCol (colS col)
    pure (replaceCol df n
      { col with dtype := Dtype.dint,
                 cells := codes.map (Option.map fun (k : ℕ) => Val.num (k : ℚ)) })

/-- A member of the `encode_categ` configuration list: a strategy string, the
literal `False`, or a target list (column names or positional indices). -/
inductive TargetRef where
  | byName (s : String)
  | byIdx (n : ℕ)
deriving DecidableEq

/-- A value appearing in the `encode_categ` list. -/
inductive EncVal where
  | strV (s : String)
  | falseV
  | listV (l : List TargetRef)
deriving DecidableEq

/-- The `outlier_param` configuration value, which may be of a wrong type. -/
inductive OParam where
  | num (q : ℚ)
  | notNum
deriving DecidableEq

/-- The AutoClean configuration (constructor arguments of `AutoClean.__init__`,
AutoClean.py line 12).  A strategy of `none` models the falsy flag `False`
(axis disabled). -/
structure Config where
  missingsNum : Option String
  missingsCateg : Option String
  outliers : Option String
  encodeCateg : List EncVal
  outlierParam : OParam
  extractDatetime : Option String
deriving DecidableEq

/-- The outlier multiplier as a rational (validation guarantees `num`). -/
def cfgParamQ (cfg : Config) : ℚ :=
  match cfg.outlierParam with
  | OParam.num q => q
  | OParam.notNum => 0

/-- Encoding of one targeted column, with the per-target try/except of the
targeted and blanket branches (AutoClean.py lines 368-378, 398-413): a
failing encode leaves the dataframe unchanged and the loop continues. -/
def encodeOneCaught (method : String) (df : Df) (n : String) : Df :=
  if method = "onehot" then onehotEncode df n
  else if method = "label" then
    match labelEncodeDf df n with
    | Except.ok d => d
    | Except.error _ => df
  else df

/-- The auto branch of `Modules._encode_categ` for one column
(AutoClean.py lines 338-360).  The encode calls sit inside the `except` of
the datetime probe, so an exception raised by the encoder itself is NOT
caught and aborts the stage. -/
def encodeAutoStep (df : Df) (n : String) : Except Unit Df :=
  match getColByName df n with
  | none => Except.ok df
  | some col =>
    if parseableDT col.cells then Except.ok df
    else if nuniqueCol col ≤ 10 then Except.ok (onehotEncode df n)
    else if nuniqueCol col ≤ 20 then labelEncodeDf df n
    else Except.ok df

/-- `Modules._encode_categ` (AutoClean.py lines 331-416).  `encode_categ[0]`
being falsy disables the stage; `auto` applies the cardinality policy with
uncaught per-column encoder errors; a two-element list is the targeted
branch; anything else is the blanket branch.  A positional-index target
subscripts a Python set and always raises, which the per-target try/except
swallows (the target is skipped). -/
def encodeCategStage (e : List EncVal) (df : Df) : Except Unit Df :=
  match e.getD 0 EncVal.falseV with
  | EncVal.falseV => Except.ok df
  | EncVal.listV _ => Except.ok df
  | EncVal.strV method =>
    let names := (df.filter fun c => ¬ numericDtype c.dtype).map Col.name
    if method = "auto" then
      names.foldlM (fun d n => encodeAutoStep d n) df
    else if e.length = 2 then
      match e.getD 1 EncVal.falseV with
      | EncVal.listV ts =>
        Except.ok (ts.foldl
          (fun d t => match t with
            | TargetRef.byName n => if n ∈ names then encodeOneCaught method d n else d
            | TargetRef.byIdx _ => d)
          df)
      | _ => Except.ok df
    else
      Except.ok (names.foldl
        (fun d n => match getColByName d n with
          | none => d
          | some col => if parseableDT col.cells then d else encodeOneCaught method d n)
        df)

/-- The per-column body of `Modules._round_values`
(AutoClean.py lines 177-195): a numeric column whose values (with missing
filled by -9999) are all integral is cast to int — the cast raises on a
missing value and the failure is caught, leaving the column untouched —
otherwise the column is rounded to 2 decimals. -/
def roundColumn (col : Col) : Col :=
  if ¬ numericDtype col.dtype then col
  else if allIntegralCells col.cells then
    if col.cells.any Option.isNone then col
    else { col with dtype := Dtype.dint,
                    cells := col.cells.map fun c => match c with
                      | some (Val.num q) => some (Val.num (truncQ q))
                      | other => other }
  else { col with cells := col.cells.map fun c => match c with
          | some (Val.num q) => some (Val.num (round2 q))
          | other => other }

/-- `Modules._round_values` (AutoClean.py lines 172-198): the final
type-normalization pass over every numeric column. -/
def roundValues (df : Df) : Df := df.map roundColumn

/-- The branch condition of `AutoClean._clean_data` (AutoClean.py line 97):
`self.missings_categ != "delete" and self.missings_num == "delete"`.  Note
that a disabled (falsy) categorical strategy also differs from "delete", so
the condition holds for it as well. -/
def categRunsFirst (mc mn : Option String) : Bool :=
  decide (mc ≠ some "delete") && decide (mn = some "delete")

/-- The ordering rule as the specification states it (spec section 4.3 /
claim C3): categorical handling runs first iff it is ENABLED, not `delete`,
and numeric handling is `delete`.  Used only to compare the specification
with `categRunsFirst`. -/
def specCategFirst (mc mn : Option String) : Bool :=
  mc.isSome && decide (mc ≠ some "delete") && decide (mn = some "delete")

/-- The missing-value phase of `AutoClean._clean_data`
(AutoClean.py lines 97-102): the two handlers composed in the order picked
by `categRunsFirst`. -/
def missingPhase (mc mn : Option String) (df : Df) : Except Unit Df :=
  if categRunsFirst mc mn then do
    let d ← checkMissingsCateg mc df
    pure (checkMissingsNum mn d)
  else do
    checkMissingsCateg mc (checkMissingsNum mn df)

/-- `AutoClean._clean_data` (AutoClean.py lines 95-112): missing-value phase,
outlier handling, datetime extraction, categorical encoding, type
normalization. -/
def cleanData (cfg : Config) (df : Df) : Except Unit Df := do
  let df1 ← missingPhase cfg.missingsCateg cfg.missingsNum df
  let df2 := checkOutliers cfg.outliers (cfgParamQ cfg) df1
  let df3 := convertDatetime cfg.extractDatetime df2
  let df4 ← encodeCategStage cfg.encodeCateg df3
  pure (roundValues df4)

/-- One axis check of the validator: a falsy value passes, a string must be
one of the recognized names. -/
def axisOk (names : List String) (o : Option String) : Bool :=
  match o with
  | none => true
  | some s => s ∈ names

/-- Whether an `encode_categ` element is a (target) list. -/
def isListV : EncVal → Bool
  | EncVal.listV _ => true
  | _ => false

/-- `AutoClean._validate_params` (AutoClean.py lines 69-93), checks in source
order.  The dataframe-type check always passes for a `Df`.  The first
`encode_categ` check (line 81) requires `not isinstance(encode_categ, list)`
in its conjunction, which is false for every list value, so the branch never
fires and in particular the encoding METHOD NAME is never validated; only
the two-element shape check (lines 83-85) remains. -/
def validateParams (cfg : Config) : Except String Unit :=
  if ¬ axisOk ["knn", "mean", "median", "mode", "delete"] cfg.missingsNum then
    Except.error "Invalid value for missings_num parameter."
  else if ¬ axisOk ["mode", "delete"] cfg.missingsCateg then
    Except.error "Invalid value for missings_categ parameter."
  else if ¬ axisOk ["winz", "delete"] cfg.outliers then
    Except.error "Invalid value for outliers parameter."
  else if cfg.encodeCateg.length = 2 ∧ ¬ isListV (cfg.encodeCateg.getD 1 EncVal.falseV) then
    Except.error "Invalid value for encode_categ parameter."
  else if cfg.outlierParam = OParam.notNum then
    Except.error "Invalid value for outlier_param parameter."
  else if ¬ axisOk ["D", "M", "Y", "h", "m", "s"] cfg.extractDatetime then
    Except.error "Invalid value for extract_datetime parameter."
  else Except.ok ()

/-- `AutoClean.__init__` (AutoClean.py lines 12-57): validate the parameters
on a working copy of the input, then run the pipeline; a validation error
aborts before any stage runs, and an uncaught stage error aborts without a
result. -/
def autoclean (cfg : Config) (df : Df) : Except String Df :=
  match validateParams cfg with
  | Except.error e => Except.error e
  | Except.ok _ =>
    match cleanData cfg df with
    | Except.error _ => Except.error "runtime error"
    | Except.ok d => Except.ok d

theorem outLow_noneB (v : Option ℚ) : outLow v none = false := by cases v <;> rfl

theorem outHigh_noneB (v : Option ℚ) : outHigh v none = false := by cases v <;> rfl

theorem winzGo_noneB (orig : List (Option ℚ)) :
    ∀ (idxs : List ℕ) (cur : List (Option ℚ)), winzGo none orig idxs cur = cur := by
  intro idxs
  induction idxs with
  | nil => intro cur; rfl
  | cons i rest ih =>
    intro cur
    simp only [winzGo, outLow_noneB, outHigh_noneB, if_false]
    exact ih cur

theorem computeBounds_of_missing (k : ℚ) (c : List (Option ℚ))
    (h : c.any Option.isNone = true) : computeBounds k c = none := by
  unfold computeBounds
  rw [h]
  simp

theorem colQ_numCells (c : List (Option ℚ)) (n : String) (dty : Dtype) :
    colQ ⟨n, dty, c.map (Option.map Val.num)⟩ = c := by
  unfold colQ
  induction c with
  | nil => rfl
  | cons a t ih =>
    cases a <;> simpa using ih

theorem zipFalse_filter {α β : Type} :
    ∀ (l : List α) (m : List β), l.length = m.length →
      ((((l.map fun _ => false).zip m).filter fun p => !p.1).map Prod.snd) = m := by
  intro l
  induction l with
  | nil =>
    intro m hm
    cases m with
    | nil => rfl
    | cons b t => simp at hm
  | cons a t ih =>
    intro m hm
    cases m with
    | nil => simp at hm
    | cons b s =>
      simp only [List.length_cons, Nat.succ.injEq] at hm
      simpa using ih s hm

theorem outsideMask_noneB (c : List (Option ℚ)) :
    outsideMask none c = c.map fun _ => false := by
  unfold outsideMask
  exact List.map_congr_left fun v _ => by rw [outLow_noneB, outHigh_noneB]; rfl

/-- Claim C10: if a numeric column still contains a missing value when the
outlier stage runs, the computed bounds are NaN (`none`), winsorizing changes
nothing, and the delete strategy drops no row: on a single-column dataframe
both strategies return the dataframe unchanged. -/
theorem C10_outlier_missing_noop (k : ℚ) (c : List (Option ℚ))
    (h : c.any Option.isNone = true) :
    computeBounds k c = none
    ∧ winzColumn k c = c
    ∧ outsideMask (computeBounds k c) c = (c.map fun _ => false)
    ∧ (∀ n : String,
        checkOutliers (some "winz") k [⟨n, Dtype.dfloat, c.map (Option.map Val.num)⟩]
          = [⟨n, Dtype.dfloat, c.map (Option.map Val.num)⟩]
        ∧ checkOutliers (some "delete") k [⟨n, Dtype.dfloat, c.map (Option.map Val.num)⟩]
          = [⟨n, Dtype.dfloat, c.map (Option.map Val.num)⟩]) := by
  have hb := computeBounds_of_missing k c h
  have hwz : winzColumn k c = c := by
    unfold winzColumn
    rw [hb]
    exact winzGo_noneB c _ c
  refine ⟨hb, hwz, by rw [hb]; exact outsideMask_noneB c, ?_⟩
  intro n
  have hget : getColByName [(⟨n, Dtype.dfloat, c.map (Option.map Val.num)⟩ : Col)] n
      = some ⟨n, Dtype.dfloat, c.map (Option.map Val.num)⟩ := by
    simp [getColByName, List.find?]
  constructor
  · show List.foldl _ _ _ = _
    simp only [List.filter, numericDtype, List.map, List.foldl]
    unfold outlierStep
    rw [hget]
    simp only [colQ_numCells, hwz, if_pos rfl, if_pos]
  · show List.foldl _ _ _ = _
    simp only [List.filter, numericDtype, List.map, List.foldl]
    unfold outlierStep
    rw [hget]
    simp only [colQ_numCells, hb, outsideMask_noneB]
    rw [if_neg (by decide)]
    simp only [ite_true, if_true]
    unfold dropRowsByMask
    simp only [List.map]
    rw [zipFalse_filter _ _ (by simp)]

/-- Claim C10 witness: a concrete column with a missing value is left
untouched by both outlier strategies. -/
theorem C10_outlier_missing_witness :
    winzColumn (3/2) [some 1, none, some 3] = [some 1, none, some 3]
    ∧ checkOutliers (some "delete") (3/2)
        [⟨"A", Dtype.dfloat, [some (Val.num 1), none, some (Val.num 3)]⟩]
      = [⟨"A", Dtype.dfloat, [some (Val.num 1), none, some (Val.num 3)]⟩] := by
  have h := C10_outlier_missing_noop (3/2) [some 1, none, some 3] (by decide)
  refine ⟨h.2.1, ?_⟩
  have h4 := (h.2.2.2 "A").2
  simpa using h4

/-- Claim C2, amended: the bounds calculator matches the specified
quartile/IQR formula on columns WITHOUT missing values; the code does not
exclude missing values, so on a column containing one the percentiles (and
hence the bounds) are NaN instead of being computed from the non-missing
values. -/
theorem C2_bounds_agree_no_missing (k : ℚ) (c : List (Option ℚ))
    (hne : c ≠ []) (hsome : c.all Option.isSome = true) :
    computeBounds k c = computeBoundsSpec k c := by
  have hempty : c.isEmpty = false := by
    cases c with
    | nil => exact absurd rfl hne
    | cons a t => rfl
  have hany : c.any Option.isNone = false := by
    rw [Bool.eq_false_iff]
    intro hcontra
    obtain ⟨x, hx, hxn⟩ := List.any_eq_true.mp hcontra
    have := List.all_eq_true.mp hsome x hx
    cases x with
    | none => simp at this
    | some q => simp at hxn
  have hvs : (c.filterMap id).isEmpty = false := by
    cases c with
    | nil => exact absurd rfl hne
    | cons a t =>
      cases a with
      | none => exact absurd (List.all_eq_true.mp hsome none (by simp)) (by simp)
      | some q => rfl
  simp only [computeBounds, computeBoundsSpec, hempty, hany, hvs]
  simp

/-- Claim C2 counterexample: on the column `[1, NaN, 3]` the code returns NaN
bounds, while the claimed computation from the non-missing values `[1, 3]`
gives `Q1 = 1.5`, `Q3 = 2.5`, `IQR = 1` and bounds `(0, 4)`. -/
theorem C2_bounds_counterexample :
    computeBounds (3/2) [some 1, none, some 3] = none
    ∧ computeBoundsSpec (3/2) [some 1, none, some 3] = some (0, 4)
    ∧ (none : Option (ℚ × ℚ)) ≠ some (0, 4) := by
  refine ⟨rfl, by with_unfolding_all decide, by decide⟩

/-- Claim C2 witness: on the concrete missing-free column `[1, 2, 3, 100]`
with the default multiplier the code bounds agree with the specified formula
and evaluate to `(-36.5, 65.5)`. -/
theorem C2_bounds_witness :
    computeBounds (3/2) [some 1, some 2, some 3, some 100]
      = computeBoundsSpec (3/2) [some 1, some 2, some 3, some 100]
    ∧ computeBounds (3/2) [some 1, some 2, some 3, some 100] = some (-73/2, 131/2) := by
  exact ⟨C2_bounds_agree_no_missing (3/2) _ (by decide) (by decide),
    by with_unfolding_all decide⟩

/-- Claim C3 counterexample: with categorical handling DISABLED and numeric
handling `delete`, the orchestrator branch condition still runs the
categorical handler first, while the claimed rule (enabled, not delete, and
numeric delete) says numeric handling should run first. -/
theorem C3_order_counterexample :
    categRunsFirst none (some "delete") = true
    ∧ specCategFirst none (some "delete") = false := by
  exact ⟨by decide, by decide⟩

/-- Claim C3, amended: the orchestrator runs the categorical handler first
iff the categorical strategy differs from `delete` — including when it is
disabled — while the numeric strategy is `delete`; when the categorical
strategy is disabled its handler is the identity, so the missing-value phase
is observationally just the numeric handler and the branch order does not
affect which rows survive. -/
theorem C3_order_amended (mc mn : Option String) (df : Df) :
    (categRunsFirst mc mn = true ↔ (mc ≠ some "delete" ∧ mn = some "delete"))
    ∧ (mc = none → missingPhase mc mn df = Except.ok (checkMissingsNum mn df)) := by
  constructor
  · simp [categRunsFirst]
  · intro hmc
    subst hmc
    unfold missingPhase
    by_cases h : categRunsFirst none mn = true
    · rw [if_pos h]
      show (checkMissingsCateg none df).bind _ = _
      rfl
    · rw [if_neg h]
      rfl

/-- Claim C3 witness: at the disputed configuration (categorical disabled,
numeric delete) the branch fires and the phase result is the numeric handler
alone. -/
theorem C3_order_witness :
    categRunsFirst none (some "delete") = true
    ∧ missingPhase none (some "delete")
        [⟨"A", Dtype.dfloat, [some (Val.num 1), none]⟩]
      = Except.ok (checkMissingsNum (some "delete")
        [⟨"A", Dtype.dfloat, [some (Val.num 1), none]⟩]) := by
  exact ⟨(C3_order_amended none (some "delete") []).1.mpr ⟨by simp, rfl⟩,
    (C3_order_amended none (some "delete")
      [⟨"A", Dtype.dfloat, [some (Val.num 1), none]⟩]).2 rfl⟩

/-- Claim C6 counterexample: the configuration with the unrecognized encoding
method name `bogus` passes validation — the validator never checks the
encoding method name (the dead conjunction on line 81 of AutoClean.py) — so
no descriptive error is raised, contradicting the claim. -/
theorem C6_validation_counterexample :
    validateParams
      { missingsNum := none, missingsCateg := none, outliers := none,
        encodeCateg := [EncVal.strV "bogus"], outlierParam := OParam.num (3/2),
        extractDatetime := none } = Except.ok ()
    ∧ ("bogus" ∉ (["auto", "onehot", "label"] : List String)) := by
  exact ⟨rfl, by decide⟩

/-- Claim C6, amended: a validation error aborts the run before any stage
output is produced, and a configuration that validates has valid values on
the missing-numeric, missing-categorical, outlier, outlier-multiplier,
datetime and target-list-shape axes; the encoding METHOD name, however, is
not validated (see the counterexample). -/
theorem C6_validation_amended (cfg : Config) (df : Df) :
    (∀ e, validateParams cfg = Except.error e → autoclean cfg df = Except.error e)
    ∧ (validateParams cfg = Except.ok () →
        (∀ s, cfg.missingsNum = some s → s ∈ ["knn", "mean", "median", "mode", "delete"])
        ∧ (∀ s, cfg.missingsCateg = some s → s ∈ ["mode", "delete"])
        ∧ (∀ s, cfg.outliers = some s → s ∈ ["winz", "delete"])
        ∧ (∀ s, cfg.extractDatetime = some s → s ∈ ["D", "M", "Y", "h", "m", "s"])
        ∧ cfg.outlierParam ≠ OParam.notNum
        ∧ (cfg.encodeCateg.length = 2 → isListV (cfg.encodeCateg.getD 1 EncVal.falseV) = true)) := by
  constructor
  · intro e he
    unfold autoclean
    rw [he]
  · intro hok
    unfold validateParams at hok
    split_ifs at hok with h1 h2 h3 h4 h5 h6
    have hax1 : axisOk ["knn", "mean", "median", "mode", "delete"] cfg.missingsNum = true := by
      revert h1; cases axisOk ["knn", "mean", "median", "mode", "delete"] cfg.missingsNum <;> simp
    have hax2 : axisOk ["mode", "delete"] cfg.missingsCateg = true := by
      revert h2; cases axisOk ["mode", "delete"] cfg.missingsCateg <;> simp
    have hax3 : axisOk ["winz", "delete"] cfg.outliers = true := by
      revert h3; cases axisOk ["winz", "delete"] cfg.outliers <;> simp
    have hax6 : axisOk ["D", "M", "Y", "h", "m", "s"] cfg.extractDatetime = true := by
      revert h6; cases axisOk ["D", "M", "Y", "h", "m", "s"] cfg.extractDatetime <;> simp
    refine ⟨?_, ?_, ?_, ?_, ?_, ?_⟩
    · intro s hs; rw [hs] at hax1; simpa [axisOk] using hax1
    · intro s hs; rw [hs] at hax2; simpa [axisOk] using hax2
    · intro s hs; rw [hs] at hax3; simpa [axisOk] using hax3
    · intro s hs; rw [hs] at hax6; simpa [axisOk] using hax6
    · exact h5
    · intro hlen
      by_cases hl : isListV (cfg.encodeCateg.getD 1 EncVal.falseV) = true
      · exact hl
      · exact absurd ⟨hlen, fun hc => hl hc⟩ h4

/-- Claim C6 witness: an invalid missing-numeric strategy makes the whole
entry point return the validation error with no pipeline output, and a fully
valid configuration satisfies every validated axis. -/
theorem C6_validation_witness :
    autoclean
      { missingsNum := some "bogus", missingsCateg := none, outliers := none,
        encodeCateg := [EncVal.strV "auto"], outlierParam := OParam.num (3/2),
        extractDatetime := none } []
      = Except.error "Invalid value for missings_num parameter."
    ∧ ({ missingsNum := some "knn", missingsCateg := some "mode",
         outliers := some "winz", encodeCateg := [EncVal.strV "auto"],
         outlierParam := OParam.num (3/2),
         extractDatetime := some "s" } : Config).outlierParam ≠ OParam.notNum := by
  constructor
  · exact (C6_validation_amended
      { missingsNum := some "bogus", missingsCateg := none, outliers := none,
        encodeCateg := [EncVal.strV "auto"], outlierParam := OParam.num (3/2),
        extractDatetime := none } []).1 _ rfl
  · exact ((C6_validation_amended
      { missingsNum := some "knn", missingsCateg := some "mode",
        outliers := some "winz", encodeCateg := [EncVal.strV "auto"],
        outlierParam := OParam.num (3/2), extractDatetime := some "s" } []).2 rfl).2.2.2.2.1

theorem truncQ_of_int (q : ℚ) (h : qIsInt q = true) : truncQ q = q := by
  have hden : q.den = 1 := by simpa [qIsInt] using h
  have hnum : truncQ q = (q.num : ℚ) := by
    unfold truncQ ratTrunc
    rw [hden]
    norm_num
  rw [hnum]
  conv_rhs => rw [← Rat.num_div_den q]
  rw [hden]
  norm_num

theorem ratFloor_intCast (z : ℤ) : ((z : ℚ)).floor = z := by
  unfold Rat.floor
  rw [Rat.den_intCast, if_pos rfl, Rat.num_intCast]

theorem rndHalfEven_intCast (z : ℤ) : rndHalfEven (z : ℚ) = z := by
  unfold rndHalfEven
  rw [ratFloor_intCast]
  simp

theorem round2_idem (q : ℚ) : round2 (round2 q) = round2 q := by
  unfold round2
  rw [div_mul_cancel₀ _ (by norm_num : (100:ℚ) ≠ 0), rndHalfEven_intCast]

theorem truncCells_of_allIntegral (cells : List Cell)
    (h : allIntegralCells cells = true) :
    (cells.map fun c => match c with
      | some (Val.num q) => some (Val.num (truncQ q))
      | other => other) = cells := by
  induction cells with
  | nil => rfl
  | cons a t ih =>
    rw [allIntegralCells, List.all_cons, Bool.and_eq_true] at h
    have ht := ih (by simpa [allIntegralCells] using h.2)
    rcases a with _ | v
    · simpa using ht
    · rcases v with q | s | d
      · have hq : qIsInt q = true := by simpa using h.1
        simpa [truncQ_of_int q hq] using ht
      · simp at h
      · simp at h

theorem roundCells_none_iff (cells : List Cell) :
    ((cells.map fun c => match c with
      | some (Val.num q) => some (Val.num (round2 q))
      | other => other).any Option.isNone) = cells.any Option.isNone := by
  induction cells with
  | nil => rfl
  | cons a t ih =>
    rcases a with _ | v
    · simp
    · rcases v with q | s | d <;> simpa using ih

theorem roundCells_idem (cells : List Cell) :
    ((cells.map fun c => match c with
      | some (Val.num q) => some (Val.num (round2 q))
      | other => other).map fun c => match c with
      | some (Val.num q) => some (Val.num (round2 q))
      | other => other) = cells.map fun c => match c with
      | some (Val.num q) => some (Val.num (round2 q))
      | other => other := by
  rw [List.map_map]
  refine List.map_congr_left fun c _ => ?_
  rcases c with _ | v
  · rfl
  · rcases v with q | s | d
    · simp [Function.comp, round2_idem]
    · rfl
    · rfl

/-- Claim C8, amended: the type normalizer is idempotent on VALUES — a second
pass never changes any cell — but not on dtypes: when rounding turns every
value of a float column integral, a second pass additionally casts the column
to integer dtype, so the two outputs are not identical dataframes (see the
counterexample). -/
theorem C8_normalizer_amended (col : Col) :
    (roundColumn (roundColumn col)).cells = (roundColumn col).cells := by
  rcases hnum : numericDtype col.dtype with _ | _
  · have h1 : roundColumn col = col := by simp [roundColumn, hnum]
    rw [h1, h1]
  · rcases hint : allIntegralCells col.cells with _ | _
    · have h1 : roundColumn col = { col with cells := col.cells.map fun c => match c with
          | some (Val.num q) => some (Val.num (round2 q))
          | other => other } := by
        simp [roundColumn, hnum, hint]
      rw [h1]
      rcases hint2 : allIntegralCells (col.cells.map fun c => match c with
          | some (Val.num q) => some (Val.num (round2 q))
          | other => other) with _ | _
      · simp only [roundColumn, hnum, hint2]
        simp only [Bool.not_eq_true, if_neg, Bool.false_eq_true, if_false]
        exact roundCells_idem col.cells
      · rcases hmiss2 : (col.cells.map fun c => match c with
            | some (Val.num q) => some (Val.num (round2 q))
            | other => other).any Option.isNone with _ | _
        · simp [roundColumn, hnum, hint2, hmiss2, truncCells_of_allIntegral _ hint2]
        · simp [roundColumn, hnum, hint2, hmiss2]
    · rcases hmiss : col.cells.any Option.isNone with _ | _
      · have h1 : roundColumn col = { col with dtype := Dtype.dint } := by
          simp [roundColumn, hnum, hint, hmiss, truncCells_of_allIntegral col.cells hint]
        have h2 : roundColumn { col with dtype := Dtype.dint }
            = { col with dtype := Dtype.dint } := by
          simp [roundColumn, numericDtype, hint, hmiss,
            truncCells_of_allIntegral col.cells hint]
        rw [h1, h2]
      · have h1 : roundColumn col = col := by simp [roundColumn, hnum, hint, hmiss]
        rw [h1, h1]

/-- Claim C8 counterexample: on the single float column `[0.001]` one
normalizer pass rounds to `[0.0]` keeping float dtype, while a second pass
casts to integer dtype — the two outputs are different dataframe columns, so
the normalizer is not idempotent as claimed. -/
theorem C8_normalizer_counterexample :
    roundColumn (roundColumn ⟨"A", Dtype.dfloat, [some (Val.num (1/1000))]⟩)
      ≠ roundColumn ⟨"A", Dtype.dfloat, [some (Val.num (1/1000))]⟩
    ∧ roundColumn ⟨"A", Dtype.dfloat, [some (Val.num (1/1000))]⟩
      = ⟨"A", Dtype.dfloat, [some (Val.num 0)]⟩
    ∧ roundColumn (roundColumn ⟨"A", Dtype.dfloat, [some (Val.num (1/1000))]⟩)
      = ⟨"A", Dtype.dint, [some (Val.num 0)]⟩
    ∧ roundValues (roundValues [⟨"A", Dtype.dfloat, [some (Val.num (1/1000))]⟩])
      ≠ roundValues [⟨"A", Dtype.dfloat, [some (Val.num (1/1000))]⟩] := by
  refine ⟨by with_unfolding_all decide, by with_unfolding_all decide,
    by with_unfolding_all decide, by with_unfolding_all decide⟩

/-- Claim C4 counterexample: on the column `[1, NaN, 3, 100]` with mean
imputation, winz outliers and multiplier 1.5, the pipeline output is
`[1, 34, 3, 100]`: the imputed mean 104/3 is truncated to 34 by the integer
cast (all original non-missing values were integral), and the
post-imputation bounds are `[-69.5, 122.5]`, so 100 lies WITHIN bounds and
is not winsorized — contradicting both numbers asserted by the claim. -/
theorem C4_endToEnd_counterexample :
    cleanData
      { missingsNum := some "mean", missingsCateg := some "mode",
        outliers := some "winz", encodeCateg := [EncVal.strV "auto"],
        outlierParam := OParam.num (3/2), extractDatetime := some "s" }
      [⟨"A", Dtype.dfloat, [some (Val.num 1), none, some (Val.num 3), some (Val.num 100)]⟩]
      = Except.ok [⟨"A", Dtype.dint,
          [some (Val.num 1), some (Val.num 34), some (Val.num 3), some (Val.num 100)]⟩]
    ∧ ((104 : ℚ)/3 ≠ 34)
    ∧ computeBounds (3/2) [some 1, some 34, some 3, some 100] = some (-139/2, 245/2)
    ∧ ¬ ((245 : ℚ)/2 < 100) := by
  refine ⟨by with_unfolding_all rfl, by with_unfolding_all decide,
    by with_unfolding_all decide, by with_unfolding_all decide⟩

/-- Claim C4, amended: the missing value is imputed to the column mean 104/3
and immediately truncated to 34 by the integer cast triggered because every
original non-missing value was integral; the post-imputation bounds are
`(-69.5, 122.5)`, 100 is within them, and the winz pass (and every later
stage) leaves the column unchanged, giving the final column
`[1, 34, 3, 100]`. -/
theorem C4_endToEnd_amended :
    checkMissingsNum (some "mean")
      [⟨"A", Dtype.dfloat, [some (Val.num 1), none, some (Val.num 3), some (Val.num 100)]⟩]
      = [⟨"A", Dtype.dint,
          [some (Val.num 1), some (Val.num 34), some (Val.num 3), some (Val.num 100)]⟩]
    ∧ winzColumn (3/2) [some 1, some 34, some 3, some 100]
      = [some 1, some 34, some 3, some 100]
    ∧ cleanData
      { missingsNum := some "mean", missingsCateg := some "mode",
        outliers := some "winz", encodeCateg := [EncVal.strV "auto"],
        outlierParam := OParam.num (3/2), extractDatetime := some "s" }
      [⟨"A", Dtype.dfloat, [some (Val.num 1), none, some (Val.num 3), some (Val.num 100)]⟩]
      = Except.ok [⟨"A", Dtype.dint,
          [some (Val.num 1), some (Val.num 34), some (Val.num 3), some (Val.num 100)]⟩] := by
  refine ⟨by with_unfolding_all decide, by with_unfolding_all decide,
    by with_unfolding_all rfl⟩

theorem filterMap_id_nil {α : Type} (l : List (Option α))
    (h : l.all Option.isNone = true) : l.filterMap id = [] := by
  induction l with
  | nil => rfl
  | cons a t ih =>
    rw [List.all_cons, Bool.and_eq_true] at h
    cases a with
    | none => simpa using ih h.2
    | some v => simp at h

theorem colQ_allNone (col : Col) (h : col.cells.all Option.isNone = true) :
    (colQ col).all Option.isNone = true := by
  unfold colQ
  rw [List.all_eq_true]
  intro x hx
  rw [List.mem_map] at hx
  obtain ⟨c, hc, hcx⟩ := hx
  have := List.all_eq_true.mp h c hc
  cases c with
  | none => rw [← hcx]; rfl
  | some v => simp at this

theorem imputeNumCol_error (strat : String) (col : Col)
    (h : col.cells.all Option.isNone = true) :
    imputeNumCol strat (colQ col) = Except.error () := by
  unfold imputeNumCol nonMissingQ
  rw [filterMap_id_nil (colQ col) (colQ_allNone col h)]

theorem modeVal_none (cells : List Cell) (h : cells.all Option.isNone = true) :
    modeVal cells = none := by
  unfold modeVal
  rw [filterMap_id_nil cells h]
  rfl

theorem exceptMapM_error {α β : Type} (f : α → Except Unit β) :
    ∀ (l : List α) (x : α), x ∈ l → f x = Except.error () →
      l.mapM f = Except.error () := by
  intro l
  induction l with
  | nil => intro x hx; cases hx
  | cons a t ih =>
    intro x hx hf
    rw [List.mapM_cons]
    rcases List.mem_cons.mp hx with rfl | hxt
    · rw [hf]; rfl
    · cases hfa : f a with
      | error e => cases e; rfl
      | ok b =>
        rw [ih x hxt hf]
        rfl

/-- Claim C5 counterexample: the configuration (numeric disabled, categorical
mode, everything else disabled) passes validation, yet on a dataframe whose
one non-numeric column is all-missing the categorical mode-imputation loop
— which has no per-column try/except — raises and the whole run aborts with
no output, contradicting the claim that no per-column failure aborts the
run. -/
theorem C5_perColumn_counterexample :
    validateParams
      { missingsNum := none, missingsCateg := some "mode", outliers := none,
        encodeCateg := [EncVal.falseV], outlierParam := OParam.num (3/2),
        extractDatetime := none } = Except.ok ()
    ∧ checkMissingsCateg (some "mode") [⟨"s", Dtype.dobj, [none]⟩] = Except.error ()
    ∧ autoclean
      { missingsNum := none, missingsCateg := some "mode", outliers := none,
        encodeCateg := [EncVal.falseV], outlierParam := OParam.num (3/2),
        extractDatetime := none } [⟨"s", Dtype.dobj, [none]⟩]
      = Except.error "runtime error" := by
  refine ⟨rfl, rfl, rfl⟩

/-- Claim C5, amended: numeric imputation failures are caught per column —
a numeric column whose imputation fails (all values missing) is left exactly
as it was, at its position, while the stage completes; categorical MODE
imputation, by contrast, has no per-column handler: one failing (all-missing)
non-numeric column makes the whole stage raise. -/
theorem C5_perColumn_amended :
    (∀ (s : String) (df : Df) (i : ℕ) (col : Col),
      s ∈ ["knn", "mean", "median", "mode"] →
      df[i]? = some col →
      numericDtype col.dtype = true →
      col.cells.all Option.isNone = true →
      (checkMissingsNum (some s) df)[i]? = some col)
    ∧ (∀ (df : Df) (col : Col),
      col ∈ df →
      numericDtype col.dtype = false →
      col.cells.all Option.isNone = true →
      totalMissing df ≠ 0 →
      checkMissingsCateg (some "mode") df = Except.error ()) := by
  constructor
  · intro s df i col hs hi hnum hmiss
    have hsd : ¬ s = "delete" := by
      rcases (by simpa using hs : s = "knn" ∨ s = "mean" ∨ s = "median" ∨ s = "mode")
        with rfl | rfl | rfl | rfl <;> decide
    show ((if totalMissing df = 0 then df
      else if s = "delete" then dropnaDf df
      else df.map fun c => if numericDtype c.dtype then imputeStepCol s c else c) : Df)[i]?
      = some col
    by_cases h0 : totalMissing df = 0
    · rw [if_pos h0]; exact hi
    · rw [if_neg h0, if_neg hsd, List.getElem?_map, hi]
      show some (if numericDtype col.dtype = true then imputeStepCol s col else col)
        = some col
      rw [if_pos hnum]
      unfold imputeStepCol
      rw [imputeNumCol_error s col hmiss]
  · intro df col hcol hnum hmiss h0
    show (if totalMissing df = 0 then Except.ok df
      else if "mode" = "mode" then
        df.mapM fun c =>
          if numericDtype c.dtype then pure c
          else do
            let cells ← imputeCategCol c.cells
            pure { c with cells := cells }
      else if "mode" = "delete" then Except.ok (dropnaDf df) else Except.ok df)
      = Except.error ()
    rw [if_neg h0, if_pos rfl]
    refine exceptMapM_error _ df col hcol ?_
    rw [if_neg (by simp [hnum])]
    show (imputeCategCol col.cells).bind _ = _
    unfold imputeCategCol
    rw [modeVal_none col.cells hmiss]
    rfl

/-- Claim C5 witness: with mean imputation, an all-missing numeric column is
left untouched at its position while the other column is imputed; the
categorical mode stage on a concrete all-missing column errors. -/
theorem C5_perColumn_witness :
    (checkMissingsNum (some "mean")
      [⟨"A", Dtype.dfloat, [none, none]⟩,
       ⟨"B", Dtype.dfloat, [some (Val.num 1), some (Val.num 3)]⟩])[0]?
      = some ⟨"A", Dtype.dfloat, [none, none]⟩
    ∧ checkMissingsCateg (some "mode")
        [⟨"s", Dtype.dobj, [none, none]⟩] = Except.error () := by
  refine ⟨?_, ?_⟩
  · exact (C5_perColumn_amended).1 "mean"
      [⟨"A", Dtype.dfloat, [none, none]⟩,
       ⟨"B", Dtype.dfloat, [some (Val.num 1), some (Val.num 3)]⟩] 0
      ⟨"A", Dtype.dfloat, [none, none]⟩ (by decide) rfl rfl rfl
  · exact (C5_perColumn_amended).2 [⟨"s", Dtype.dobj, [none, none]⟩]
      ⟨"s", Dtype.dobj, [none, none]⟩ (by simp) rfl rfl (by decide)

theorem mem_sortedInsert {α : Type} [LinearOrder α] (a b : α) :
    ∀ l : List α, b ∈ sortedInsert a l ↔ b = a ∨ b ∈ l := by
  intro l
  induction l with
  | nil => simp [sortedInsert]
  | cons c t ih =>
    unfold sortedInsert
    by_cases hac : a = c
    · subst hac
      rw [if_pos rfl]
      constructor
      · intro h; exact Or.inr h
      · rintro (rfl | h)
        · exact List.mem_cons_self _ _
        · exact h
    · rw [if_neg hac]
      by_cases hlt : a < c
      · rw [if_pos hlt]
        simp
      · rw [if_neg hlt]
        simp only [List.mem_cons, ih]
        constructor
        · rintro (rfl | rfl | h)
          · exact Or.inr (Or.inl rfl)
          · exact Or.inl rfl
          · exact Or.inr (Or.inr h)
        · rintro (rfl | rfl | h)
          · exact Or.inr (Or.inl rfl)
          · exact Or.inl rfl
          · exact Or.inr (Or.inr h)

theorem sorted_sortedInsert {α : Type} [LinearOrder α] (a : α) :
    ∀ l : List α, l.Pairwise (· < ·) → (sortedInsert a l).Pairwise (· < ·) := by
  intro l
  induction l with
  | nil => intro; simp [sortedInsert]
  | cons c t ih =>
    intro hp
    rw [List.pairwise_cons] at hp
    unfold sortedInsert
    by_cases hac : a = c
    · rw [if_pos hac]
      exact List.pairwise_cons.mpr hp
    · rw [if_neg hac]
      by_cases hlt : a < c
      · rw [if_pos hlt]
        refine List.pairwise_cons.mpr ⟨?_, List.pairwise_cons.mpr hp⟩
        intro x hx
        rcases List.mem_cons.mp hx with rfl | hxt
        · exact hlt
        · exact lt_trans hlt (hp.1 x hxt)
      · rw [if_neg hlt]
        have hca : c < a := by
          rcases lt_trichotomy a c with h | h | h
          · exact absurd h hlt
          · exact absurd h hac
          · exact h
        refine List.pairwise_cons.mpr ⟨?_, ih hp.2⟩
        intro x hx
        rcases (mem_sortedInsert a x t).mp hx with rfl | hxt
        · exact hca
        · exact hp.1 x hxt

theorem mem_uniqueSorted {α : Type} [LinearOrder α] (b : α) :
    ∀ l : List α, b ∈ uniqueSorted l ↔ b ∈ l := by
  intro l
  induction l with
  | nil => simp [uniqueSorted]
  | cons a t ih =>
    show b ∈ sortedInsert a (uniqueSorted t) ↔ _
    rw [mem_sortedInsert, ih]
    simp

theorem sorted_uniqueSorted {α : Type} [LinearOrder α] :
    ∀ l : List α, (uniqueSorted l).Pairwise (· < ·) := by
  intro l
  induction l with
  | nil => exact List.Pairwise.nil
  | cons a t ih => exact sorted_sortedInsert a (uniqueSorted t) ih

theorem indexOf_strictMono {α : Type} [LinearOrder α] [DecidableEq α] (a b : α) :
    ∀ l : List α, l.Pairwise (· < ·) → a ∈ l → b ∈ l → a < b →
      l.indexOf a < l.indexOf b := by
  intro l
  induction l with
  | nil => intro _ ha; cases ha
  | cons c t ih =>
    intro hp ha hb hab
    rw [List.pairwise_cons] at hp
    by_cases hac : c = a
    · subst hac
      have hbc : c ≠ b := fun h => absurd hab (by rw [h]; exact lt_irrefl b)
      rw [List.indexOf_cons_self, List.indexOf_cons_ne t hbc]
      exact Nat.succ_pos _
    · have hat : a ∈ t := by
        rcases List.mem_cons.mp ha with rfl | h
        · exact absurd rfl hac
        · exact h
      have hcb : c ≠ b := by
        intro h
        subst h
        exact absurd (lt_trans (hp.1 a hat) hab) (lt_irrefl c)
      have hbt : b ∈ t := by
        rcases List.mem_cons.mp hb with rfl | h
        · exact absurd rfl hcb
        · exact h
      rw [List.indexOf_cons_ne t (fun h => hac h),
        List.indexOf_cons_ne t hcb]
      exact Nat.succ_lt_succ (ih hp.2 hat hbt hab)

/-- Claim C9 counterexample: sklearn's LabelEncoder assigns codes in SORTED
order of the distinct values, not in order of first appearance: on the column
`[b, a]` the code output is `[1, 0]`, while first-appearance coding (the
spec's EncodingMap) would give `[0, 1]`. -/
theorem C9_label_counterexample :
    labelEncodeCol [some "b", some "a"] = Except.ok [some 1, some 0]
    ∧ firstAppearClassesSpec ["b", "a"] = ["b", "a"]
    ∧ (firstAppearClassesSpec ["b", "a"]).indexOf "b" = 0
    ∧ ([some 1, some 0] : List (Option ℕ)) ≠ [some 0, some 1] := by
  refine ⟨by with_unfolding_all rfl, by with_unfolding_all decide,
    by with_unfolding_all decide, by decide⟩

/-- Claim C9, amended: label encoding assigns each of the k distinct observed
values a distinct code in `[0, k-1]` in SORTED order of the values (not first
appearance); decoding through the class list reconstructs the original values
exactly; and a column holding both strings and a missing value is not encoded
at all — the sorted-unique step raises, so a missing value never surfaces as
a finite code. -/
theorem C9_label_amended (c : List String) :
    (∀ a ∈ c, (uniqueSorted c).indexOf a < (uniqueSorted c).length)
    ∧ (∀ a ∈ c, ∀ b ∈ c,
        (uniqueSorted c).indexOf a = (uniqueSorted c).indexOf b → a = b)
    ∧ (∀ a ∈ c, (uniqueSorted c)[(uniqueSorted c).indexOf a]? = some a)
    ∧ (∀ a ∈ c, ∀ b ∈ c, a < b →
        (uniqueSorted c).indexOf a < (uniqueSorted c).indexOf b)
    ∧ (c ≠ [] → labelEncodeCol (c.map some)
        = Except.ok (c.map fun v => some ((uniqueSorted c).indexOf v)))
    ∧ (∀ c2 : List (Option String),
        c2.any Option.isNone = true → c2.any Option.isSome = true →
        labelEncodeCol c2 = Except.error ()) := by
  refine ⟨?_, ?_, ?_, ?_, ?_, ?_⟩
  · intro a ha
    exact List.indexOf_lt_length.mpr ((mem_uniqueSorted a c).mpr ha)
  · intro a ha b hb h
    have h1 : (uniqueSorted c)[(uniqueSorted c).indexOf a]? = some a :=
      List.getElem?_indexOf ((mem_uniqueSorted a c).mpr ha)
    have h2 : (uniqueSorted c)[(uniqueSorted c).indexOf b]? = some b :=
      List.getElem?_indexOf ((mem_uniqueSorted b c).mpr hb)
    rw [h] at h1
    rw [h1] at h2
    exact Option.some.inj h2
  · intro a ha
    exact List.getElem?_indexOf ((mem_uniqueSorted a c).mpr ha)
  · intro a ha b hb hab
    exact indexOf_strictMono a b (uniqueSorted c) (sorted_uniqueSorted c)
      ((mem_uniqueSorted a c).mpr ha) ((mem_uniqueSorted b c).mpr hb) hab
  · intro hne
    cases c with
    | nil => exact absurd rfl hne
    | cons a t =>
      unfold labelEncodeCol
      rw [if_neg (by simp), if_neg (by simp)]
      simp [List.map_map, Function.comp]
  · intro c2 h1 h2
    unfold labelEncodeCol
    rw [if_pos (by rw [h1, h2]; rfl)]

/-- Claim C9 witness: on the concrete column `[b, a]` the class list is
`[a, b]`, the round trip through the recorded classes reconstructs `b`, and
the whole column encodes to `[1, 0]`. -/
theorem C9_label_witness :
    (uniqueSorted ["b", "a"])[(uniqueSorted ["b", "a"]).indexOf "b"]? = some "b"
    ∧ labelEncodeCol (["b", "a"].map some)
      = Except.ok (["b", "a"].map fun v => some ((uniqueSorted ["b", "a"]).indexOf v)) := by
  refine ⟨?_, ?_⟩
  · exact (C9_label_amended ["b", "a"]).2.2.1 "b" (by decide)
  · exact (C9_label_amended ["b", "a"]).2.2.2.2.1 (by decide)

theorem allZero_cells_map (ds : List DTm) (f : DTm → ℕ) :
    ((ds.map fun d => some (Val.num (f d : ℚ))).all fun c => match c with
      | some (Val.num q) => q = 0
      | _ => false) = ds.all fun d => f d = 0 := by
  induction ds with
  | nil => rfl
  | cons d t ih =>
    simp only [List.map_cons, List.all_cons, ih]
    congr 1
    simp [Nat.cast_eq_zero]

theorem allZeroCol_map (n : String) (dty : Dtype) (ds : List DTm) (f : DTm → ℕ) :
    allZeroCol ⟨n, dty, ds.map fun d => some (Val.num (f d))⟩
      = ds.all fun d => f d = 0 := by
  unfold allZeroCol
  exact allZero_cells_map ds f

theorem dtComponent_map (f : DTm → ℕ) (ds : List DTm) :
    dtComponent f (ds.map fun d => some (Val.dt d))
      = ds.map fun d => some (Val.num (f d)) := by
  unfold dtComponent
  rw [List.map_map]
  rfl

set_option maxRecDepth 8000 in
/-- Claim C7 counterexample: a column of pure dates parses with hour, minute
and second uniformly zero, so the cleanup heuristic DROPS the Hour, Minute
and Sec columns: with granularity s the output contains only Day, Month and
Year, not the six components the claim requires. -/
theorem C7_datetime_counterexample :
    convertDatetime (some "s")
      [⟨"t", Dtype.dobj, [some (Val.dt ⟨6, 5, 2021, 0, 0, 0⟩)]⟩]
      = [⟨"t", Dtype.ddt, [some (Val.dt ⟨6, 5, 2021, 0, 0, 0⟩)]⟩,
         ⟨"Day", Dtype.dint, [some (Val.num 6)]⟩,
         ⟨"Month", Dtype.dint, [some (Val.num 5)]⟩,
         ⟨"Year", Dtype.dint, [some (Val.num 2021)]⟩]
    ∧ getColByName (convertDatetime (some "s")
        [⟨"t", Dtype.dobj, [some (Val.dt ⟨6, 5, 2021, 0, 0, 0⟩)]⟩]) "Hour" = none := by
  refine ⟨by with_unfolding_all decide, by with_unfolding_all decide⟩

set_option maxRecDepth 8000 in
/-- Claim C7, amended: for a parseable non-numeric column with granularity s,
the extractor appends Day, Month, Year, Hour, Minute and Sec columns whose
values are exactly the parsed components, and retains the original column —
PROVIDED hour, minute and second are not uniformly zero (otherwise those
three columns are dropped by the cleanup heuristic; day components of real
dates are never zero, so the Day/Month/Year drop branch never fires). -/
theorem C7_datetime_amended (name : String) (ds : List DTm)
    (hname : name ∉ ["Day", "Month", "Year", "Hour", "Minute", "Sec"])
    (hday : ∀ d ∈ ds, d.day ≠ 0) (hne : ds ≠ [])
    (htime : ¬ (∀ d ∈ ds, d.hour = 0 ∧ d.minute = 0 ∧ d.sec = 0)) :
    convertDatetime (some "s") [⟨name, Dtype.dobj, ds.map fun d => some (Val.dt d)⟩]
      = [⟨name, Dtype.ddt, ds.map fun d => some (Val.dt d)⟩,
         ⟨"Day", Dtype.dint, ds.map fun d => some (Val.num d.day)⟩,
         ⟨"Month", Dtype.dint, ds.map fun d => some (Val.num d.month)⟩,
         ⟨"Year", Dtype.dint, ds.map fun d => some (Val.num d.year)⟩,
         ⟨"Hour", Dtype.dint, ds.map fun d => some (Val.num d.hour)⟩,
         ⟨"Minute", Dtype.dint, ds.map fun d => some (Val.num d.minute)⟩,
         ⟨"Sec", Dtype.dint, ds.map fun d => some (Val.num d.sec)⟩] := by
  simp only [List.mem_cons, List.mem_singleton, not_or] at hname
  obtain ⟨hD, hM, hY, hh, hm, hs, -⟩ := hname
  have hpar : parseableDT (ds.map fun d => some (Val.dt d)) = true := by
    simp [parseableDT, List.all_map, Function.comp]
  have hstep : convertDatetime (some "s")
      [⟨name, Dtype.dobj, ds.map fun d => some (Val.dt d)⟩]
      = dtCleanup
        [⟨name, Dtype.ddt, ds.map fun d => some (Val.dt d)⟩,
         ⟨"Day", Dtype.dint, ds.map fun d => some (Val.num d.day)⟩,
         ⟨"Month", Dtype.dint, ds.map fun d => some (Val.num d.month)⟩,
         ⟨"Year", Dtype.dint, ds.map fun d => some (Val.num d.year)⟩,
         ⟨"Hour", Dtype.dint, ds.map fun d => some (Val.num d.hour)⟩,
         ⟨"Minute", Dtype.dint, ds.map fun d => some (Val.num d.minute)⟩,
         ⟨"Sec", Dtype.dint, ds.map fun d => some (Val.num d.sec)⟩] := by
    simp [convertDatetime, convertDatetimeStep, getColByName, numericDtype, hpar,
      setColF, replaceCol, dtComponent_map, hD, hM, hY, hh, hm, hs]
  rw [hstep]
  have hdayz : (ds.all fun d => d.day = 0) = false := by
    cases ds with
    | nil => exact absurd rfl hne
    | cons d t =>
      rw [List.all_cons, Bool.and_eq_false_iff]
      exact Or.inl (decide_eq_false (hday d (List.mem_cons_self _ _)))
  have helif : dtCleanupElif
      [⟨name, Dtype.ddt, ds.map fun d => some (Val.dt d)⟩,
       ⟨"Day", Dtype.dint, ds.map fun d => some (Val.num d.day)⟩,
       ⟨"Month", Dtype.dint, ds.map fun d => some (Val.num d.month)⟩,
       ⟨"Year", Dtype.dint, ds.map fun d => some (Val.num d.year)⟩,
       ⟨"Hour", Dtype.dint, ds.map fun d => some (Val.num d.hour)⟩,
       ⟨"Minute", Dtype.dint, ds.map fun d => some (Val.num d.minute)⟩,
       ⟨"Sec", Dtype.dint, ds.map fun d => some (Val.num d.sec)⟩]
      = [⟨name, Dtype.ddt, ds.map fun d => some (Val.dt d)⟩,
         ⟨"Day", Dtype.dint, ds.map fun d => some (Val.num d.day)⟩,
         ⟨"Month", Dtype.dint, ds.map fun d => some (Val.num d.month)⟩,
         ⟨"Year", Dtype.dint, ds.map fun d => some (Val.num d.year)⟩,
         ⟨"Hour", Dtype.dint, ds.map fun d => some (Val.num d.hour)⟩,
         ⟨"Minute", Dtype.dint, ds.map fun d => some (Val.num d.minute)⟩,
         ⟨"Sec", Dtype.dint, ds.map fun d => some (Val.num d.sec)⟩] := by
    simp [dtCleanupElif, getColByName, List.find?, hD, allZeroCol_map, hdayz]
  unfold dtCleanup
  have hgetH : getColByName
      [⟨name, Dtype.ddt, ds.map fun d => some (Val.dt d)⟩,
       ⟨"Day", Dtype.dint, ds.map fun d => some (Val.num d.day)⟩,
       ⟨"Month", Dtype.dint, ds.map fun d => some (Val.num d.month)⟩,
       ⟨"Year", Dtype.dint, ds.map fun d => some (Val.num d.year)⟩,
       ⟨"Hour", Dtype.dint, ds.map fun d => some (Val.num d.hour)⟩,
       ⟨"Minute", Dtype.dint, ds.map fun d => some (Val.num d.minute)⟩,
       ⟨"Sec", Dtype.dint, ds.map fun d => some (Val.num d.sec)⟩] "Hour"
      = some ⟨"Hour", Dtype.dint, ds.map fun d => some (Val.num d.hour)⟩ := by
    simp [getColByName, List.find?, hh]
  rw [hgetH]
  simp only []
  rw [allZeroCol_map]
  rcases hH : (ds.all fun d => d.hour = 0) with _ | _
  · rw [if_neg Bool.false_ne_true]
    exact helif
  · rw [if_pos rfl]
    have hgetM : getColByName
        [⟨name, Dtype.ddt, ds.map fun d => some (Val.dt d)⟩,
         ⟨"Day", Dtype.dint, ds.map fun d => some (Val.num d.day)⟩,
         ⟨"Month", Dtype.dint, ds.map fun d => some (Val.num d.month)⟩,
         ⟨"Year", Dtype.dint, ds.map fun d => some (Val.num d.year)⟩,
         ⟨"Hour", Dtype.dint, ds.map fun d => some (Val.num d.hour)⟩,
         ⟨"Minute", Dtype.dint, ds.map fun d => some (Val.num d.minute)⟩,
         ⟨"Sec", Dtype.dint, ds.map fun d => some (Val.num d.sec)⟩] "Minute"
        = some ⟨"Minute", Dtype.dint, ds.map fun d => some (Val.num d.minute)⟩ := by
      simp [getColByName, List.find?, hm]
    rw [hgetM]
    simp only []
    rw [allZeroCol_map]
    rcases hMin : (ds.all fun d => d.minute = 0) with _ | _
    · rw [if_neg Bool.false_ne_true]
      exact helif
    · rw [if_pos rfl]
      have hgetS : getColByName
          [⟨name, Dtype.ddt, ds.map fun d => some (Val.dt d)⟩,
           ⟨"Day", Dtype.dint, ds.map fun d => some (Val.num d.day)⟩,
           ⟨"Month", Dtype.dint, ds.map fun d => some (Val.num d.month)⟩,
           ⟨"Year", Dtype.dint, ds.map fun d => some (Val.num d.year)⟩,
           ⟨"Hour", Dtype.dint, ds.map fun d => some (Val.num d.hour)⟩,
           ⟨"Minute", Dtype.dint, ds.map fun d => some (Val.num d.minute)⟩,
           ⟨"Sec", Dtype.dint, ds.map fun d => some (Val.num d.sec)⟩] "Sec"
          = some ⟨"Sec", Dtype.dint, ds.map fun d => some (Val.num d.sec)⟩ := by
        simp [getColByName, List.find?, hs]
      rw [hgetS]
      simp only []
      rw [allZeroCol_map]
      rcases hSec : (ds.all fun d => d.sec = 0) with _ | _
      · rw [if_neg Bool.false_ne_true]
        exact helif
      · exact absurd (fun d hd =>
          ⟨of_decide_eq_true (List.all_eq_true.mp hH d hd),
           of_decide_eq_true (List.all_eq_true.mp hMin d hd),
           of_decide_eq_true (List.all_eq_true.mp hSec d hd)⟩) htime

/-- Claim C7 witness: a concrete timestamp column with a nonzero time of day
yields the original column plus all six exact component columns. -/
theorem C7_datetime_witness :
    convertDatetime (some "s")
      [⟨"t", Dtype.dobj, ([(⟨6, 5, 2021, 7, 30, 15⟩ : DTm)]).map fun d => some (Val.dt d)⟩]
      = [⟨"t", Dtype.ddt, ([(⟨6, 5, 2021, 7, 30, 15⟩ : DTm)]).map fun d => some (Val.dt d)⟩,
         ⟨"Day", Dtype.dint, ([(⟨6, 5, 2021, 7, 30, 15⟩ : DTm)]).map fun d => some (Val.num d.day)⟩,
         ⟨"Month", Dtype.dint, ([(⟨6, 5, 2021, 7, 30, 15⟩ : DTm)]).map fun d => some (Val.num d.month)⟩,
         ⟨"Year", Dtype.dint, ([(⟨6, 5, 2021, 7, 30, 15⟩ : DTm)]).map fun d => some (Val.num d.year)⟩,
         ⟨"Hour", Dtype.dint, ([(⟨6, 5, 2021, 7, 30, 15⟩ : DTm)]).map fun d => some (Val.num d.hour)⟩,
         ⟨"Minute", Dtype.dint, ([(⟨6, 5, 2021, 7, 30, 15⟩ : DTm)]).map fun d => some (Val.num d.minute)⟩,
         ⟨"Sec", Dtype.dint, ([(⟨6, 5, 2021, 7, 30, 15⟩ : DTm)]).map fun d => some (Val.num d.sec)⟩] := by
  exact C7_datetime_amended "t" [⟨6, 5, 2021, 7, 30, 15⟩] (by decide) (by decide)
    (by decide) (by decide)

theorem qIsInt_truncQ (q : ℚ) : qIsInt (truncQ q) = true := by
  unfold qIsInt truncQ
  rw [Rat.den_intCast]
  rfl

theorem truncQ_idem (q : ℚ) : truncQ (truncQ q) = truncQ q :=
  truncQ_of_int _ (qIsInt_truncQ q)

theorem allIntegralO_get (cur : List (Option ℚ)) (h : allIntegralO cur = true)
    (j : ℕ) (q : ℚ) (hj : cur[j]? = some (some q)) : qIsInt q = true := by
  have hmem : some q ∈ cur := List.getElem?_mem hj
  simpa using List.all_eq_true.mp h (some q) hmem

theorem allIntegralO_castIntO (c : List (Option ℚ)) :
    allIntegralO (castIntO c) = true := by
  unfold allIntegralO castIntO
  rw [List.all_eq_true]
  intro x hx
  rw [List.mem_map] at hx
  obtain ⟨y, _, hyx⟩ := hx
  cases y with
  | none => rw [← hyx]; rfl
  | some q => rw [← hyx]; simpa using qIsInt_truncQ q

theorem getD_eq_someO (l : List (Option ℚ)) (i : ℕ) (v : ℚ)
    (h : l.getD i none = some v) : l[i]? = some (some v) := by
  rw [List.getD_eq_getElem?_getD] at h
  cases hl : l[i]? with
  | none => rw [hl] at h; simp at h
  | some x => rw [hl] at h; simp only [Option.getD_some] at h; rw [h]

theorem outLow_some_iff (x : Option ℚ) (lb ub : ℚ) :
    outLow x (some (lb, ub)) = true ↔ ∃ v, x = some v ∧ v < lb := by
  cases x <;> simp [outLow]

theorem outHigh_some_iff (x : Option ℚ) (lb ub : ℚ) :
    outHigh x (some (lb, ub)) = true ↔ ∃ v, x = some v ∧ ub < v := by
  cases x <;> simp [outHigh]

theorem winzGo_length (b : Option (ℚ × ℚ)) (orig : List (Option ℚ)) :
    ∀ (idxs : List ℕ) (cur : List (Option ℚ)),
      (winzGo b orig idxs cur).length = cur.length := by
  intro idxs
  induction idxs with
  | nil => intro cur; rfl
  | cons i rest ih =>
    intro cur
    show (winzGo b orig rest _).length = _
    rw [ih]
    split
    · split <;> simp [castIntO]
    · split
      · split <;> simp [castIntO]
      · rfl

theorem winzGo_cons (b : Option (ℚ × ℚ)) (orig : List (Option ℚ)) (i : ℕ)
    (rest : List ℕ) (cur : List (Option ℚ)) :
    winzGo b orig (i :: rest) cur = winzGo b orig rest
      (if outLow (orig.getD i none) b then
        (if allIntegralO cur then castIntO (cur.set i (some (bndLow b)))
         else cur.set i (some (bndLow b)))
      else if outHigh (orig.getD i none) b then
        (if allIntegralO cur then castIntO (cur.set i (some (bndHigh b)))
         else cur.set i (some (bndHigh b)))
      else cur) := rfl

theorem winzGo_inbounds (lb ub : ℚ) (orig : List (Option ℚ)) :
    ∀ (idxs : List ℕ) (cur : List (Option ℚ)),
      (∀ (j : ℕ) (q : ℚ), orig[j]? = some (some q) → ¬ q < lb → ¬ ub < q →
        cur[j]? = some (some q)) →
      ∀ (j : ℕ) (q : ℚ), orig[j]? = some (some q) → ¬ q < lb → ¬ ub < q →
        (winzGo (some (lb, ub)) orig idxs cur)[j]? = some (some q) := by
  intro idxs
  induction idxs with
  | nil => intro cur hinv; exact hinv
  | cons i rest ih =>
    intro cur hinv
    rw [winzGo_cons]
    refine ih _ ?_
    rcases hg1 : outLow (orig.getD i none) (some (lb, ub)) with _ | _
    · rcases hg2 : outHigh (orig.getD i none) (some (lb, ub)) with _ | _
      · simp only [Bool.false_eq_true, if_false]
        exact hinv
      · obtain ⟨v, hv, hvu⟩ := (outHigh_some_iff _ lb ub).mp hg2
        have hvi : orig[i]? = some (some v) := getD_eq_someO orig i v hv
        simp only [Bool.false_eq_true, if_false, if_true]
        intro j q hj hql hqu
        have hij : i ≠ j := by
          intro h
          rw [h, hj] at hvi
          obtain rfl : q = v := by simpa using hvi
          exact hqu hvu
        rcases hint : allIntegralO cur with _ | _
        · simp only [Bool.false_eq_true, if_false]
          rw [List.getElem?_set_ne hij]
          exact hinv j q hj hql hqu
        · simp only [if_true]
          unfold castIntO
          rw [List.getElem?_map, List.getElem?_set_ne hij, hinv j q hj hql hqu]
          have hqi : qIsInt q = true :=
            allIntegralO_get cur hint j q (hinv j q hj hql hqu)
          simp [truncQ_of_int q hqi]
    · obtain ⟨v, hv, hvl⟩ := (outLow_some_iff _ lb ub).mp hg1
      have hvi : orig[i]? = some (some v) := getD_eq_someO orig i v hv
      simp only [if_true]
      intro j q hj hql hqu
      have hij : i ≠ j := by
        intro h
        rw [h, hj] at hvi
        obtain rfl : q = v := by simpa using hvi
        exact hql hvl
      rcases hint : allIntegralO cur with _ | _
      · simp only [Bool.false_eq_true, if_false]
        rw [List.getElem?_set_ne hij]
        exact hinv j q hj hql hqu
      · simp only [if_true]
        unfold castIntO
        rw [List.getElem?_map, List.getElem?_set_ne hij, hinv j q hj hql hqu]
        have hqi : qIsInt q = true :=
          allIntegralO_get cur hint j q (hinv j q hj hql hqu)
        simp [truncQ_of_int q hqi]

theorem truncOpt_fix_of_int (orig : List (Option ℚ)) (hAll : allIntegralO orig = true)
    (j : ℕ) : (orig[j]?).map (Option.map truncQ) = orig[j]? := by
  cases horig : orig[j]? with
  | none => rfl
  | some cell =>
    cases cell with
    | none => rfl
    | some v => simp [truncQ_of_int v (allIntegralO_get orig hAll j v horig)]

theorem truncOpt_fix_target (orig : List (Option ℚ)) (lb ub : ℚ) (j : ℕ) :
    ((orig[j]?).map (Option.map fun q => truncQ (clampQ lb ub q))).map (Option.map truncQ)
      = (orig[j]?).map (Option.map fun q => truncQ (clampQ lb ub q)) := by
  cases orig[j]? with
  | none => rfl
  | some cell =>
    cases cell with
    | none => rfl
    | some v => simp [truncQ_idem]

theorem winzGo_allIntegral (lb ub : ℚ) (orig : List (Option ℚ))
    (hAll : allIntegralO orig = true) :
    ∀ (idxs : List ℕ) (cur : List (Option ℚ)),
      idxs.Nodup →
      (∀ i ∈ idxs, i < orig.length) →
      cur.length = orig.length →
      allIntegralO cur = true →
      (∀ j ∈ idxs, cur[j]? = orig[j]?) →
      (∀ (j : ℕ), j ∉ idxs →
        cur[j]? = (orig[j]?).map (Option.map fun q => truncQ (clampQ lb ub q))) →
      ∀ (j : ℕ), (winzGo (some (lb, ub)) orig idxs cur)[j]?
        = (orig[j]?).map (Option.map fun q => truncQ (clampQ lb ub q)) := by
  intro idxs
  induction idxs with
  | nil =>
    intro cur _ _ _ _ _ hout j
    exact hout j (List.not_mem_nil j)
  | cons i rest ih =>
    intro cur hnd hmem hlen hint hin hout
    obtain ⟨hir, hndr⟩ := List.nodup_cons.mp hnd
    have hilen : i < orig.length := hmem i (List.mem_cons_self _ _)
    have hmemr : ∀ a ∈ rest, a < orig.length :=
      fun a ha => hmem a (List.mem_cons_of_mem _ ha)
    rw [winzGo_cons]
    rcases hg1 : outLow (orig.getD i none) (some (lb, ub)) with _ | _
    · rcases hg2 : outHigh (orig.getD i none) (some (lb, ub)) with _ | _
      · simp only [Bool.false_eq_true, if_false]
        refine ih cur hndr hmemr hlen hint
          (fun j hj => hin j (List.mem_cons_of_mem _ hj)) ?_
        intro j hj
        by_cases hji : j = i
        · subst hji
          rw [hin j (List.mem_cons_self _ _)]
          cases horig : orig[j]? with
          | none => rfl
          | some cell =>
            cases cell with
            | none => rfl
            | some v =>
              have hv : orig.getD j none = some v := by
                rw [List.getD_eq_getElem?_getD, horig]; rfl
              rw [hv] at hg1 hg2
              simp only [outLow, outHigh, decide_eq_false_iff_not] at hg1 hg2
              have hclamp : clampQ lb ub v = v := by
                unfold clampQ
                rw [if_neg hg1, if_neg hg2]
              simp [hclamp, truncQ_of_int v (allIntegralO_get orig hAll j v horig)]
        · refine hout j fun h => ?_
          rcases List.mem_cons.mp h with he | ht
          · exact hji he
          · exact hj ht
      · obtain ⟨v, hv, hvu⟩ := (outHigh_some_iff _ lb ub).mp hg2
        have hvi : orig[i]? = some (some v) := getD_eq_someO orig i v hv
        simp only [Bool.false_eq_true, if_false, if_true, hint]
        refine ih _ hndr hmemr (by simp [castIntO, hlen]) (allIntegralO_castIntO _) ?_ ?_
        · intro j hj
          have hij : i ≠ j := fun h => hir (h ▸ hj)
          unfold castIntO
          rw [List.getElem?_map, List.getElem?_set_ne hij,
            hin j (List.mem_cons_of_mem _ hj)]
          exact truncOpt_fix_of_int orig hAll j
        · intro j hj
          by_cases hji : j = i
          · subst hji
            unfold castIntO
            have hjlen : j < cur.length := by rw [hlen]; exact hilen
            rw [List.getElem?_map, List.getElem?_set_self hjlen, hvi]
            have hnl : ¬ v < lb := by
              rw [hv] at hg1
              simpa [outLow] using hg1
            have hclamp : clampQ lb ub v = bndHigh (some (lb, ub)) := by
              unfold clampQ bndHigh
              rw [if_neg hnl, if_pos hvu]
            simp [hclamp]
          · have hij : j ∉ rest := hj
            have hnotin : j ∉ i :: rest := fun h => by
              rcases List.mem_cons.mp h with he | ht
              · exact hji he
              · exact hij ht
            unfold castIntO
            rw [List.getElem?_map, List.getElem?_set_ne (fun h => hji h.symm),
              hout j hnotin]
            exact truncOpt_fix_target orig lb ub j
    · obtain ⟨v, hv, hvl⟩ := (outLow_some_iff _ lb ub).mp hg1
      have hvi : orig[i]? = some (some v) := getD_eq_someO orig i v hv
      simp only [if_true, hint]
      refine ih _ hndr hmemr (by simp [castIntO, hlen]) (allIntegralO_castIntO _) ?_ ?_
      · intro j hj
        have hij : i ≠ j := fun h => hir (h ▸ hj)
        unfold castIntO
        rw [List.getElem?_map, List.getElem?_set_ne hij,
          hin j (List.mem_cons_of_mem _ hj)]
        exact truncOpt_fix_of_int orig hAll j
      · intro j hj
        by_cases hji : j = i
        · subst hji
          unfold castIntO
          have hjlen : j < cur.length := by rw [hlen]; exact hilen
          rw [List.getElem?_map, List.getElem?_set_self hjlen, hvi]
          have hclamp : clampQ lb ub v = bndLow (some (lb, ub)) := by
            unfold clampQ bndLow
            rw [if_pos hvl]
          simp [hclamp]
        · have hij : j ∉ rest := hj
          have hnotin : j ∉ i :: rest := fun h => by
            rcases List.mem_cons.mp h with he | ht
            · exact hji he
            · exact hij ht
          unfold castIntO
          rw [List.getElem?_map, List.getElem?_set_ne (fun h => hji h.symm),
            hout j hnotin]
          exact truncOpt_fix_target orig lb ub j

theorem winzGo_nonIntegral (lb ub : ℚ) (orig : List (Option ℚ))
    (w : ℕ) (qw : ℚ)
    (hwl : ¬ qw < lb) (hwu : ¬ ub < qw) (hwi : qIsInt qw = false) :
    ∀ (idxs : List ℕ) (cur : List (Option ℚ)),
      idxs.Nodup →
      (∀ i ∈ idxs, i < orig.length) →
      cur.length = orig.length →
      cur[w]? = some (some qw) →
      orig[w]? = some (some qw) →
      (∀ j ∈ idxs, cur[j]? = orig[j]?) →
      (∀ (j : ℕ), j ∉ idxs →
        cur[j]? = (orig[j]?).map (Option.map (clampQ lb ub))) →
      ∀ (j : ℕ), (winzGo (some (lb, ub)) orig idxs cur)[j]?
        = (orig[j]?).map (Option.map (clampQ lb ub)) := by
  intro idxs
  induction idxs with
  | nil =>
    intro cur _ _ _ _ _ _ hout j
    exact hout j (List.not_mem_nil j)
  | cons i rest ih =>
    intro cur hnd hmem hlen hcw how hin hout
    obtain ⟨hir, hndr⟩ := List.nodup_cons.mp hnd
    have hilen : i < orig.length := hmem i (List.mem_cons_self _ _)
    have hmemr : ∀ a ∈ rest, a < orig.length :=
      fun a ha => hmem a (List.mem_cons_of_mem _ ha)
    have hcurint : allIntegralO cur = false := by
      rcases hci : allIntegralO cur with _ | _
      · rfl
      · exact absurd (allIntegralO_get cur hci w qw hcw) (by rw [hwi]; exact Bool.false_ne_true)
    rw [winzGo_cons]
    rcases hg1 : outLow (orig.getD i none) (some (lb, ub)) with _ | _
    · rcases hg2 : outHigh (orig.getD i none) (some (lb, ub)) with _ | _
      · simp only [Bool.false_eq_true, if_false]
        refine ih cur hndr hmemr hlen hcw how
          (fun j hj => hin j (List.mem_cons_of_mem _ hj)) ?_
        intro j hj
        by_cases hji : j = i
        · subst hji
          rw [hin j (List.mem_cons_self _ _)]
          cases horig : orig[j]? with
          | none => rfl
          | some cell =>
            cases cell with
            | none => rfl
            | some v =>
              have hv : orig.getD j none = some v := by
                rw [List.getD_eq_getElem?_getD, horig]; rfl
              rw [hv] at hg1 hg2
              simp only [outLow, outHigh, decide_eq_false_iff_not] at hg1 hg2
              have hclamp : clampQ lb ub v = v := by
                unfold clampQ
                rw [if_neg hg1, if_neg hg2]
              simp [hclamp]
        · refine hout j fun h => ?_
          rcases List.mem_cons.mp h with he | ht
          · exact hji he
          · exact hj ht
      · obtain ⟨v, hv, hvu⟩ := (outHigh_some_iff _ lb ub).mp hg2
        have hvi : orig[i]? = some (some v) := getD_eq_someO orig i v hv
        have hiw : i ≠ w := by
          intro h
          rw [h, how] at hvi
          obtain rfl : qw = v := by simpa using hvi
          exact hwu hvu
        simp only [Bool.false_eq_true, if_false, if_true, hcurint]
        refine ih _ hndr hmemr (by simp [hlen]) ?_ how ?_ ?_
        · rw [List.getElem?_set_ne hiw]
          exact hcw
        · intro j hj
          have hij : i ≠ j := fun h => hir (h ▸ hj)
          rw [List.getElem?_set_ne hij]
          exact hin j (List.mem_cons_of_mem _ hj)
        · intro j hj
          by_cases hji : j = i
          · subst hji
            have hjlen : j < cur.length := by rw [hlen]; exact hilen
            rw [List.getElem?_set_self hjlen, hvi]
            have hnl : ¬ v < lb := by
              rw [hv] at hg1
              simpa [outLow] using hg1
            have hclamp : clampQ lb ub v = bndHigh (some (lb, ub)) := by
              unfold clampQ bndHigh
              rw [if_neg hnl, if_pos hvu]
            simp [hclamp]
          · have hnotin : j ∉ i :: rest := fun h => by
              rcases List.mem_cons.mp h with he | ht
              · exact hji he
              · exact hj ht
            rw [List.getElem?_set_ne (fun h => hji h.symm)]
            exact hout j hnotin
    · obtain ⟨v, hv, hvl⟩ := (outLow_some_iff _ lb ub).mp hg1
      have hvi : orig[i]? = some (some v) := getD_eq_someO orig i v hv
      have hiw : i ≠ w := by
        intro h
        rw [h, how] at hvi
        obtain rfl : qw = v := by simpa using hvi
        exact hwl hvl
      simp only [if_true, hcurint, Bool.false_eq_true, if_false]
      refine ih _ hndr hmemr (by simp [hlen]) ?_ how ?_ ?_
      · rw [List.getElem?_set_ne hiw]
        exact hcw
      · intro j hj
        have hij : i ≠ j := fun h => hir (h ▸ hj)
        rw [List.getElem?_set_ne hij]
        exact hin j (List.mem_cons_of_mem _ hj)
      · intro j hj
        by_cases hji : j = i
        · subst hji
          have hjlen : j < cur.length := by rw [hlen]; exact hilen
          rw [List.getElem?_set_self hjlen, hvi]
          have hclamp : clampQ lb ub v = bndLow (some (lb, ub)) := by
            unfold clampQ bndLow
            rw [if_pos hvl]
          simp [hclamp]
        · have hnotin : j ∉ i :: rest := fun h => by
            rcases List.mem_cons.mp h with he | ht
            · exact hji he
            · exact hj ht
          rw [List.getElem?_set_ne (fun h => hji h.symm)]
          exact hout j hnotin

/-- Claim C1, amended: given computed bounds `(lb, ub)`, the winz pass
(i) never changes a value that lies within the bounds; (ii) on a column whose
values are ALL integral it replaces every out-of-bounds value by the matching
bound TRUNCATED to an integer (the per-replacement `astype(int)` cast), i.e.
the result is `truncate (clamp v)` pointwise; and (iii) on a column that
keeps an in-bounds non-integral value, no cast ever fires and every
out-of-bounds value becomes exactly the matching bound, i.e. `clamp v`
pointwise.  The claim's unconditional "output equals lower/upper" is wrong
whenever a cast truncates a fractional bound (see the counterexample, where
the cast fires although the column was NOT originally all-integral). -/
theorem C1_winz_characterization (k lb ub : ℚ) (cs : List (Option ℚ))
    (hb : computeBounds k cs = some (lb, ub)) :
    (∀ (i : ℕ) (q : ℚ), cs[i]? = some (some q) → ¬ q < lb → ¬ ub < q →
      (winzColumn k cs)[i]? = some (some q))
    ∧ (allIntegralO cs = true →
        winzColumn k cs = cs.map (Option.map fun q => truncQ (clampQ lb ub q)))
    ∧ ((∃ (w : ℕ) (qw : ℚ), cs[w]? = some (some qw) ∧ ¬ qw < lb ∧ ¬ ub < qw
          ∧ qIsInt qw = false) →
        winzColumn k cs = cs.map (Option.map (clampQ lb ub))) := by
  refine ⟨?_, ?_, ?_⟩
  · intro i q hi hql hqu
    unfold winzColumn
    rw [hb]
    exact winzGo_inbounds lb ub cs (List.range cs.length) cs
      (fun _ _ h _ _ => h) i q hi hql hqu
  · intro hAll
    refine List.ext_getElem? fun j => ?_
    rw [List.getElem?_map]
    unfold winzColumn
    rw [hb]
    refine winzGo_allIntegral lb ub cs hAll (List.range cs.length) cs
      (List.nodup_range _) (fun a ha => List.mem_range.mp ha) rfl hAll
      (fun _ _ => rfl) ?_ j
    intro a ha
    have hle : cs.length ≤ a := Nat.le_of_not_lt fun h => ha (List.mem_range.mpr h)
    rw [List.getElem?_eq_none hle]
    rfl
  · rintro ⟨w, qw, hw, hwl, hwu, hwi⟩
    refine List.ext_getElem? fun j => ?_
    rw [List.getElem?_map]
    unfold winzColumn
    rw [hb]
    refine winzGo_nonIntegral lb ub cs w qw hwl hwu hwi (List.range cs.length) cs
      (List.nodup_range _) (fun a ha => List.mem_range.mp ha) rfl hw hw
      (fun _ _ => rfl) ?_ j
    intro a ha
    have hle : cs.length ≤ a := Nat.le_of_not_lt fun h => ha (List.mem_range.mpr h)
    rw [List.getElem?_eq_none hle]
    rfl

/-- Claim C1 counterexample: on the column
`[0.4, 0, 10, 10, 10, 10, 10, 100]` — NOT all-integral — the bounds are
`(4, 13.6)`; processing row 0 replaces the fractional 0.4 by 4 (no cast: the
column still holds 0.4 at check time), which makes the column all-integral,
so the later replacement of 100 fires the integer cast and writes
`trunc 13.6 = 13` instead of the upper bound 13.6 that the claim demands for
a column that was not originally all-integral. -/
theorem C1_winz_counterexample :
    allIntegralO [some (2/5), some 0, some 10, some 10, some 10, some 10,
      some 10, some 100] = false
    ∧ computeBounds (3/2) [some (2/5), some 0, some 10, some 10, some 10,
        some 10, some 10, some 100] = some (4, 68/5)
    ∧ ((68 : ℚ)/5 < 100)
    ∧ (winzColumn (3/2) [some (2/5), some 0, some 10, some 10, some 10,
        some 10, some 10, some 100])[7]? = some (some 13)
    ∧ ((13 : ℚ) ≠ 68/5) := by
  refine ⟨by with_unfolding_all decide, by with_unfolding_all decide,
    by with_unfolding_all decide, by with_unfolding_all decide,
    by with_unfolding_all decide⟩

/-- Claim C1 witness: on the all-integral column `[1, 2, 3, 100]` with bounds
`(-36.5, 65.5)`, in-bounds values are unchanged and the outlier 100 becomes
the truncated upper bound 65. -/
theorem C1_winz_witness :
    winzColumn (3/2) [some 1, some 2, some 3, some 100]
      = [some 1, some 2, some 3, some 65]
    ∧ (winzColumn (3/2) [some 1, some 2, some 3, some 100])[1]? = some (some 2) := by
  have hb : computeBounds (3/2) [some 1, some 2, some 3, some 100]
      = some (-73/2, 131/2) := by with_unfolding_all decide
  have h := C1_winz_characterization (3/2) (-73/2) (131/2)
    [some 1, some 2, some 3, some 100] hb
  constructor
  · rw [h.2.1 (by decide)]
    with_unfolding_all decide
  · exact h.1 1 2 rfl (by with_unfolding_all decide) (by with_unfolding_all decide)
